import Mathlib

/-!
Shallow embedding of the BiteSpeed identity-reconciliation core
(`src/services/contact.service.ts` together with the contact repository's
query/mutation semantics).  The store is modelled as the list of contact
rows in the order the storage layer returns them; queries that the source
issues with `orderBy: { createdAt: 'asc' }` are modelled as a stable
insertion sort by `createdAt` over that order, matching a stable
JavaScript `Array.prototype.sort`.  Soft-deleted rows are carried in the
model and excluded from every query, as in the repository.  Timestamps
are natural numbers; the caller's clock value `now` is passed explicitly.
-/

/-- The `LinkPrecedence` enum from `types/index.ts`. -/
inductive LinkPrecedence where
  | primary
  | secondary
deriving DecidableEq

/-- The `ContactEntity` domain record from `types/index.ts`. -/
structure Contact where
  id : Nat
  phoneNumber : Option String
  email : Option String
  linkedId : Option Nat
  linkPrecedence : LinkPrecedence
  createdAt : Nat
  updatedAt : Nat
  deletedAt : Option Nat
deriving DecidableEq

/-- The contact table plus the auto-increment id counter. -/
structure Store where
  contacts : List Contact
  nextId : Nat
deriving DecidableEq

/-- The consolidated response DTO (`IdentifyResponseDTO`); the field name
`primaryContatctId` reproduces the source's intentional spelling. -/
structure IdentifyResponse where
  primaryContatctId : Nat
  emails : List String
  phoneNumbers : List String
  secondaryContactIds : List Nat
deriving DecidableEq

/-- Errors the service can raise: `ValidationError` from the input guard,
and the generic integrity `Error` thrown by `buildResponse`. -/
inductive IdErr where
  | validation
  | integrity
deriving DecidableEq

instance {ε α : Type} [DecidableEq ε] [DecidableEq α] : DecidableEq (Except ε α) := fun a b =>
  match a, b with
  | .ok x, .ok y =>
    if h : x = y then isTrue (by rw [h]) else isFalse (fun hh => by cases hh; exact h rfl)
  | .error x, .error y =>
    if h : x = y then isTrue (by rw [h]) else isFalse (fun hh => by cases hh; exact h rfl)
  | .ok _, .error _ => isFalse (fun hh => by cases hh)
  | .error _, .ok _ => isFalse (fun hh => by cases hh)

/-- JavaScript string truthiness for optional fields: `null`/`undefined`
and the empty string are falsy. -/
def truthy : Option String → Bool
  | none => false
  | some s => !(s == "")

/-- Comparison key used by every repository query (`orderBy createdAt asc`)
and by `mergePrimaryContacts`' sort. -/
def leCreated (a b : Contact) : Prop := a.createdAt ≤ b.createdAt

instance : DecidableRel leCreated := fun _ _ => Nat.decLe _ _

instance : IsTotal Contact leCreated := ⟨fun _ _ => Nat.le_total _ _⟩

instance : IsTrans Contact leCreated := ⟨fun _ _ _ h h' => Nat.le_trans h h'⟩

/-- Sort rank of `buildResponse`'s comparator: primaries first. -/
def rank (c : Contact) : Nat :=
  match c.linkPrecedence with
  | .primary => 0
  | .secondary => 1

/-- The total preorder realised by `buildResponse`'s comparator: primary
contacts before secondaries, then ascending `createdAt`. -/
def respLe (a b : Contact) : Prop :=
  rank a < rank b ∨ (rank a = rank b ∧ a.createdAt ≤ b.createdAt)

instance : DecidableRel respLe := fun _ _ => inferInstanceAs (Decidable (_ ∨ _))

instance : IsTotal Contact respLe :=
  ⟨fun a b => by
    unfold respLe
    rcases Nat.lt_trichotomy (rank a) (rank b) with h | h | h
    · exact Or.inl (Or.inl h)
    · rcases Nat.le_total a.createdAt b.createdAt with h' | h'
      · exact Or.inl (Or.inr ⟨h, h'⟩)
      · exact Or.inr (Or.inr ⟨h.symm, h'⟩)
    · exact Or.inr (Or.inl h)⟩

instance : IsTrans Contact respLe :=
  ⟨fun a b c hab hbc => by
    unfold respLe at *
    rcases hab with h | ⟨h, h'⟩ <;> rcases hbc with g | ⟨g, g'⟩
    · exact Or.inl (Nat.lt_trans h g)
    · exact Or.inl (g ▸ h)
    · exact Or.inl (h ▸ g)
    · exact Or.inr ⟨h.trans g, h'.trans g'⟩⟩

/-- A row is visible to queries iff it is not soft-deleted. -/
def alive (c : Contact) : Bool := c.deletedAt == none

/-- Repository `findByEmailOrPhone`: exact match on either provided field,
excluding soft-deleted rows, ordered by `createdAt` ascending. -/
def findByEmailOrPhone (email phone : Option String) (s : Store) : List Contact :=
  List.insertionSort leCreated
    (s.contacts.filter fun c =>
      alive c && ((truthy email && c.email == email) || (truthy phone && c.phoneNumber == phone)))

/-- Membership test matching `primaryIds.includes`. -/
def linkedToAny (primaryIds : List Nat) (c : Contact) : Bool :=
  primaryIds.contains c.id ||
    (match c.linkedId with
     | some l => primaryIds.contains l
     | none => false)

/-- Repository `findAllLinkedContacts`: every visible row whose `id` or
`linkedId` is one of the given primary ids, ordered by `createdAt`. -/
def findAllLinkedContacts (primaryIds : List Nat) (s : Store) : List Contact :=
  if primaryIds.isEmpty then []
  else
    List.insertionSort leCreated
      (s.contacts.filter fun c => alive c && linkedToAny primaryIds c)

/-- Repository `create`: a fresh row with the next id and the current
timestamps, appended to the table. -/
def createContact (now : Nat) (email phoneNumber : Option String)
    (linkedId : Option Nat) (prec : LinkPrecedence) (s : Store) : Contact × Store :=
  let c : Contact :=
    { id := s.nextId, phoneNumber := phoneNumber, email := email, linkedId := linkedId,
      linkPrecedence := prec, createdAt := now, updatedAt := now, deletedAt := none }
  (c, { contacts := s.contacts ++ [c], nextId := s.nextId + 1 })

/-- Field patch applied by repository `update`: each `some` in the outer
option means the field was supplied; `updatedAt` is always bumped. -/
def applyUpdate (now : Nat) (newLinkedId : Option (Option Nat))
    (newPrec : Option LinkPrecedence) (c : Contact) : Contact :=
  { c with
    linkedId := newLinkedId.getD c.linkedId,
    linkPrecedence := newPrec.getD c.linkPrecedence,
    updatedAt := now }

/-- Repository `update`: patch the row with the given id. -/
def updateContact (now : Nat) (targetId : Nat) (newLinkedId : Option (Option Nat))
    (newPrec : Option LinkPrecedence) (s : Store) : Store :=
  { s with
    contacts := s.contacts.map fun c =>
      if c.id = targetId then applyUpdate now newLinkedId newPrec c else c }

/-- Leading- and trailing-whitespace removal on the character list,
modelling JavaScript `String.prototype.trim`. -/
def trimChars (cs : List Char) : List Char :=
  ((cs.dropWhile Char.isWhitespace).reverse.dropWhile Char.isWhitespace).reverse

/-- `trim` on strings, via `trimChars`. -/
def trimmed (s : String) : String := String.mk (trimChars s.data)

/-- Service `normalizeField`: trim whitespace, turn blank into absent. -/
def normalizeField : Option String → Option String
  | none => none
  | some v =>
    let t := trimmed v
    if t = "" then none else some t

/-- Insertion-ordered de-duplication, the behaviour of a JS `Set`. -/
def addUnique (acc : List Nat) (n : Nat) : List Nat :=
  if n ∈ acc then acc else acc ++ [n]

/-- Service `resolvePrimaryIds`: a primary match contributes its own id, a
secondary match contributes its `linkedId` (when non-null). -/
def resolvePrimaryIds (contacts : List Contact) : List Nat :=
  contacts.foldl
    (fun acc c =>
      if c.linkPrecedence = LinkPrecedence.primary then addUnique acc c.id
      else
        match c.linkedId with
        | some l => addUnique acc l
        | none => acc)
    []

/-- One iteration of `mergePrimaryContacts`' loop: demote the loser, then
re-point the loser's secondaries found in the `allContacts` snapshot. -/
def mergeLoserStep (now winnerId : Nat) (allContacts : List Contact)
    (st : Store) (loser : Contact) : Store :=
  let st1 := updateContact now loser.id (some (some winnerId))
    (some LinkPrecedence.secondary) st
  let orphans := allContacts.filter fun c =>
    c.linkedId == some loser.id && !(c.id == loser.id)
  orphans.foldl (fun st2 o => updateContact now o.id (some (some winnerId)) none st2) st1

/-- Service `mergePrimaryContacts`: sort the discovered primaries by
`createdAt`, keep the first as winner, demote the rest and re-point their
secondaries, then re-read the cluster keyed by the winner alone. -/
def mergePrimaryContacts (now : Nat) (primaryIds : List Nat)
    (allContacts : List Contact) (s : Store) : List Contact × Store :=
  let primaries := List.insertionSort leCreated
    (allContacts.filter fun c =>
      primaryIds.contains c.id && c.linkPrecedence == LinkPrecedence.primary)
  match primaries with
  | [] => (allContacts, s)
  | [_] => (allContacts, s)
  | winner :: loser :: rest =>
    let s1 := (loser :: rest).foldl (mergeLoserStep now winner.id allContacts) s
    (findAllLinkedContacts [winner.id] s1, s1)

/-- Service `createSecondaryIfNeeded`: skip when the exact pair already
exists in the cluster; otherwise create a secondary when at least one
field is new to the cluster. -/
def createSecondaryIfNeeded (now : Nat) (email phoneNumber : Option String)
    (contacts : List Contact) (s : Store) : List Contact × Store :=
  match contacts.find? (fun c => c.linkPrecedence == LinkPrecedence.primary) with
  | none => (contacts, s)
  | some primary =>
    let existingEmails := (contacts.filterMap (·.email)).filter (fun e => !(e == ""))
    let existingPhones := (contacts.filterMap (·.phoneNumber)).filter (fun e => !(e == ""))
    let emailIsNew :=
      match email with
      | some e => !(existingEmails.contains e)
      | none => false
    let phoneIsNew :=
      match phoneNumber with
      | some p => !(existingPhones.contains p)
      | none => false
    let exactMatch := contacts.any fun c =>
      (email.isNone || c.email == email) && (phoneNumber.isNone || c.phoneNumber == phoneNumber)
    if exactMatch then (contacts, s)
    else if emailIsNew || phoneIsNew then
      let (c, s1) := createContact now email phoneNumber (some primary.id)
        LinkPrecedence.secondary s
      (contacts ++ [c], s1)
    else (contacts, s)

/-- The de-duplicating collection loop of `buildResponse` for emails. -/
def collectEmails (sorted : List Contact) : List String :=
  sorted.foldl
    (fun acc c =>
      match c.email with
      | some e => if !(e == "") && !(acc.contains e) then acc ++ [e] else acc
      | none => acc)
    []

/-- The de-duplicating collection loop of `buildResponse` for phones. -/
def collectPhones (sorted : List Contact) : List String :=
  sorted.foldl
    (fun acc c =>
      match c.phoneNumber with
      | some p => if !(p == "") && !(acc.contains p) then acc ++ [p] else acc
      | none => acc)
    []

/-- The secondary-id collection loop of `buildResponse`. -/
def collectSecondaryIds (sorted : List Contact) : List Nat :=
  sorted.foldl
    (fun acc c =>
      if c.linkPrecedence = LinkPrecedence.secondary then acc ++ [c.id] else acc)
    []

/-- Service `buildResponse`: sort the cluster primary-first then by
`createdAt`, fail when no primary is present, and collect the
de-duplicated emails, phones and secondary ids in sorted order. -/
def buildResponse (contacts : List Contact) : Except IdErr IdentifyResponse :=
  let sorted := List.insertionSort respLe contacts
  match sorted.find? (fun c => c.linkPrecedence == LinkPrecedence.primary) with
  | none => Except.error IdErr.integrity
  | some primary =>
    Except.ok
      { primaryContatctId := primary.id,
        emails := collectEmails sorted,
        phoneNumbers := collectPhones sorted,
        secondaryContactIds := collectSecondaryIds sorted }

/-- Service `createNewPrimaryContact`: fresh primary plus its response. -/
def createNewPrimaryContact (now : Nat) (email phoneNumber : Option String)
    (s : Store) : Except IdErr IdentifyResponse × Store :=
  let (c, s1) := createContact now email phoneNumber none LinkPrecedence.primary s
  (Except.ok
    { primaryContatctId := c.id,
      emails := if truthy c.email then [c.email.getD ""] else [],
      phoneNumbers := if truthy c.phoneNumber then [c.phoneNumber.getD ""] else [],
      secondaryContactIds := [] }, s1)

/-- Steps 2–4 of `identify` for a non-empty match set: resolve the primary
ids, fetch the cluster, and merge when several primaries were touched. -/
def pipelineMerged (now : Nat) (email phone : Option String) (s : Store) :
    List Contact × Store :=
  let primaryIds := resolvePrimaryIds (findByEmailOrPhone email phone s)
  let allContacts := findAllLinkedContacts primaryIds s
  if primaryIds.length > 1 then mergePrimaryContacts now primaryIds allContacts s
  else (allContacts, s)

/-- Steps 2–5 of `identify`: the merged cluster after the
secondary-creation decision, together with the final store. -/
def pipelineFinal (now : Nat) (email phone : Option String) (s : Store) :
    List Contact × Store :=
  createSecondaryIfNeeded now email phone (pipelineMerged now email phone s).1
    (pipelineMerged now email phone s).2

/-- The fields `identify` never touches on an existing row: everything
except `linkedId`, `linkPrecedence` and `updatedAt`. -/
def coreEq (c c' : Contact) : Prop :=
  c'.id = c.id ∧ c'.email = c.email ∧ c'.phoneNumber = c.phoneNumber ∧
    c'.createdAt = c.createdAt ∧ c'.deletedAt = c.deletedAt

/-- Frame relation between stores: no row disappears and every old row
keeps its identity fields. -/
def Evolves (s s' : Store) : Prop :=
  s.contacts.length ≤ s'.contacts.length ∧
    ∀ c ∈ s.contacts, ∃ c' ∈ s'.contacts, coreEq c c'

/-- Service `identify`: the main reconciliation pipeline.  Returns the
response (or raised error) together with the store as left behind by the
writes performed before the return or throw. -/
def identify (now : Nat) (reqEmail reqPhone : Option String) (s : Store) :
    Except IdErr IdentifyResponse × Store :=
  let email := normalizeField reqEmail
  let phoneNumber := normalizeField reqPhone
  if email = none ∧ phoneNumber = none then (Except.error IdErr.validation, s)
  else
    let matching := findByEmailOrPhone email phoneNumber s
    if matching.isEmpty then createNewPrimaryContact now email phoneNumber s
    else
      let primaryIds := resolvePrimaryIds matching
      let allContacts := findAllLinkedContacts primaryIds s
      let step4 :=
        if primaryIds.length > 1 then mergePrimaryContacts now primaryIds allContacts s
        else (allContacts, s)
      let step5 := createSecondaryIfNeeded now email phoneNumber step4.1 step4.2
      (buildResponse step5.1, step5.2)

/-- The primary ids `identify` resolves for an (already normalized)
request against a store. -/
def reqPrimaryIds (email phone : Option String) (s : Store) : List Nat :=
  resolvePrimaryIds (findByEmailOrPhone email phone s)

/-- The primaries of the fetched cluster in the order `mergePrimaryContacts`
sorts them: the head is the winner, the tail are the losers. -/
def reqPrimariesSorted (email phone : Option String) (s : Store) : List Contact :=
  List.insertionSort leCreated
    ((findAllLinkedContacts (reqPrimaryIds email phone s) s).filter fun c =>
      (reqPrimaryIds email phone s).contains c.id &&
        c.linkPrecedence == LinkPrecedence.primary)

/-- A request field is blank when it is absent, null, or whitespace-only. -/
def blank (v : Option String) : Prop :=
  match v with
  | none => True
  | some w => trimmed w = ""

instance : DecidablePred blank := fun v => by
  unfold blank
  match v with
  | none => exact inferInstance
  | some w => exact inferInstance

/-- Shorthand constructor for concrete contact rows. -/
def mkContact (i : Nat) (em ph : Option String) (lk : Option Nat)
    (pr : LinkPrecedence) (t : Nat) : Contact :=
  { id := i, phoneNumber := ph, email := em, linkedId := lk, linkPrecedence := pr,
    createdAt := t, updatedAt := t, deletedAt := none }

/-- The spec's concrete seed: two separate primaries later bridged. -/
def storeSpecPair : Store :=
  { contacts :=
      [ mkContact 11 (some ("george")) (some ("919191")) none .primary 11,
        mkContact 27 (some ("biff")) (some ("717171")) none .primary 21 ],
    nextId := 28 }

/-- Two primaries with the same `createdAt`, stored with the larger id
first — the order the storage layer may legitimately return ties in. -/
def storeTiePrimaries : Store :=
  { contacts :=
      [ mkContact 2 (some ("b")) (some ("1")) none .primary 5,
        mkContact 1 (some ("a")) none none .primary 5 ],
    nextId := 3 }

/-- One primary whose two secondaries share a `createdAt`, stored with the
larger id first. -/
def storeTieSecondaries : Store :=
  { contacts :=
      [ mkContact 1 (some ("a")) (some ("1")) none .primary 0,
        mkContact 3 (some ("c")) none (some 1) .secondary 7,
        mkContact 2 (some ("b")) none (some 1) .secondary 7 ],
    nextId := 4 }

/-- A corrupt store: row 4 is a secondary whose `linkedId` names row 3,
itself a secondary — the flattened-hierarchy invariant is violated. -/
def storeCorruptPointer : Store :=
  { contacts :=
      [ mkContact 1 (some ("e")) (some ("pa")) none .primary 0,
        mkContact 2 (some ("eb")) (some ("p")) none .primary 1,
        mkContact 3 (some ("ex")) (some ("px")) (some 1) .secondary 2,
        mkContact 4 (some ("e")) (some ("pm")) (some 3) .secondary 3 ],
    nextId := 5 }

/-- A corrupt store: row 2 claims PRIMARY precedence while also carrying a
`linkedId`, so one cluster fetch sees two primaries. -/
def storeTwoPrimaries : Store :=
  { contacts :=
      [ mkContact 1 (some ("a")) (some ("1")) none .primary 0,
        mkContact 2 (some ("b")) (some ("2")) (some 1) .primary 1 ],
    nextId := 3 }

/-- Two clusters each holding a primary and one secondary, later bridged
by a request — exercises orphan re-pointing during a merge. -/
def storeOrphanMerge : Store :=
  { contacts :=
      [ mkContact 1 (some ("a")) (some ("111")) none .primary 0,
        mkContact 2 (some ("a2")) (some ("111")) (some 1) .secondary 1,
        mkContact 10 (some ("b")) (some ("222")) none .primary 2,
        mkContact 11 (some ("b2")) (some ("222")) (some 10) .secondary 3 ],
    nextId := 12 }

/-- A corrupt store: the only row is a secondary with no `linkedId`. -/
def storeOrphanSecondary : Store :=
  { contacts := [ mkContact 1 (some ("a")) none none .secondary 0 ],
    nextId := 2 }

/-- Per-contact effect of one `mergeLoserStep`, used to characterise the
merge loop: the demotion applies when the row is the loser, and the
orphan re-pointing applies when the `allContacts` snapshot lists an
orphan with this row's id. -/
def applyMergeLoser (now winnerId : Nat) (allContacts : List Contact)
    (loser : Contact) (c : Contact) : Contact :=
  let c1 :=
    if c.id = loser.id then
      applyUpdate now (some (some winnerId)) (some LinkPrecedence.secondary) c
    else c
  (allContacts.filter fun o => o.linkedId == some loser.id && !(o.id == loser.id)).foldl
    (fun cc o => if cc.id = o.id then applyUpdate now (some (some winnerId)) none cc else cc) c1

/-- Per-contact effect of the whole merge loop. -/
def mergeFoldC (now winnerId : Nat) (allContacts : List Contact)
    (losers : List Contact) (c : Contact) : Contact :=
  losers.foldl (fun cc l => applyMergeLoser now winnerId allContacts l cc) c

/-- Net per-row effect of a merge with the given winner and loser ids:
losers are demoted and re-pointed, visible secondaries of losers are
re-pointed, everything else is untouched. -/
def mergedContact (now winnerId : Nat) (loserIds : List Nat) (c : Contact) : Contact :=
  if c.id ∈ loserIds then
    applyUpdate now (some (some winnerId)) (some LinkPrecedence.secondary) c
  else if alive c = true ∧ ∃ lid ∈ loserIds, c.linkedId = some lid then
    applyUpdate now (some (some winnerId)) none c
  else c

/-- The data-model invariants of the spec, together with the two relational
facts the data model presumes: ids are unique and below the id counter.
The record invariants are asserted for rows visible to queries. -/
def WellFormed (s : Store) : Prop :=
  (s.contacts.map (fun c => c.id)).Nodup ∧
  (∀ c ∈ s.contacts, c.id < s.nextId) ∧
  (∀ c ∈ s.contacts, alive c = true → (c.email ≠ none ∨ c.phoneNumber ≠ none)) ∧
  (∀ c ∈ s.contacts, alive c = true →
    c.linkPrecedence = LinkPrecedence.primary → c.linkedId = none) ∧
  (∀ c ∈ s.contacts, alive c = true → c.linkPrecedence = LinkPrecedence.secondary →
    ∃ q ∈ s.contacts, alive q = true ∧ c.linkedId = some q.id ∧
      q.linkPrecedence = LinkPrecedence.primary)

instance (s : Store) : Decidable (WellFormed s) := by
  unfold WellFormed
  infer_instance

/-! ### Basic lemmas about the store operations -/

theorem coreEq_refl (c : Contact) : coreEq c c := ⟨rfl, rfl, rfl, rfl, rfl⟩

theorem coreEq_trans {a b c : Contact} (h : coreEq a b) (h' : coreEq b c) : coreEq a c := by
  obtain ⟨h1, h2, h3, h4, h5⟩ := h
  obtain ⟨g1, g2, g3, g4, g5⟩ := h'
  exact ⟨g1.trans h1, g2.trans h2, g3.trans h3, g4.trans h4, g5.trans h5⟩

theorem coreEq_applyUpdate (now : Nat) (v : Option (Option Nat)) (p : Option LinkPrecedence)
    (c : Contact) : coreEq c (applyUpdate now v p c) := ⟨rfl, rfl, rfl, rfl, rfl⟩

theorem updateContact_contacts (now targetId : Nat) (v : Option (Option Nat))
    (p : Option LinkPrecedence) (s : Store) :
    (updateContact now targetId v p s).contacts =
      s.contacts.map fun c => if c.id = targetId then applyUpdate now v p c else c := rfl

theorem updateContact_length (now targetId : Nat) (v : Option (Option Nat))
    (p : Option LinkPrecedence) (s : Store) :
    (updateContact now targetId v p s).contacts.length = s.contacts.length := by
  simp [updateContact]

theorem updateContact_nextId (now targetId : Nat) (v : Option (Option Nat))
    (p : Option LinkPrecedence) (s : Store) :
    (updateContact now targetId v p s).nextId = s.nextId := rfl

theorem evolves_refl (s : Store) : Evolves s s :=
  ⟨Nat.le_refl _, fun c hc => ⟨c, hc, coreEq_refl c⟩⟩

theorem evolves_trans {s s' s'' : Store} (h : Evolves s s') (h' : Evolves s' s'') :
    Evolves s s'' := by
  refine ⟨h.1.trans h'.1, fun c hc => ?_⟩
  obtain ⟨c', hc', hcc⟩ := h.2 c hc
  obtain ⟨c'', hc'', hcc'⟩ := h'.2 c' hc'
  exact ⟨c'', hc'', coreEq_trans hcc hcc'⟩

theorem evolves_updateContact (now targetId : Nat) (v : Option (Option Nat))
    (p : Option LinkPrecedence) (s : Store) : Evolves s (updateContact now targetId v p s) := by
  refine ⟨by simp [updateContact], fun c hc => ?_⟩
  refine ⟨if c.id = targetId then applyUpdate now v p c else c, ?_, ?_⟩
  · rw [updateContact_contacts]
    exact List.mem_map_of_mem _ hc
  · split
    · exact coreEq_applyUpdate now v p c
    · exact coreEq_refl c

theorem evolves_createContact (now : Nat) (email phoneNumber : Option String)
    (linkedId : Option Nat) (prec : LinkPrecedence) (s : Store) :
    Evolves s (createContact now email phoneNumber linkedId prec s).2 := by
  refine ⟨?_, fun c hc => ⟨c, ?_, coreEq_refl c⟩⟩
  · simp [createContact]
  · simp only [createContact, List.mem_append]
    exact Or.inl hc

theorem evolves_foldl {β : Type} {f : Store → β → Store}
    (hf : ∀ st b, Evolves st (f st b)) :
    ∀ (l : List β) (s : Store), Evolves s (l.foldl f s) := by
  intro l
  induction l with
  | nil => intro s; exact evolves_refl s
  | cons b bs ih => intro s; exact evolves_trans (hf s b) (ih (f s b))

theorem evolves_mergeLoserStep (now winnerId : Nat) (allContacts : List Contact)
    (st : Store) (loser : Contact) : Evolves st (mergeLoserStep now winnerId allContacts st loser) := by
  unfold mergeLoserStep
  exact evolves_trans (evolves_updateContact ..)
    (evolves_foldl (fun st2 o => evolves_updateContact ..) _ _)

theorem evolves_mergePrimaryContacts (now : Nat) (primaryIds : List Nat)
    (allContacts : List Contact) (s : Store) :
    Evolves s (mergePrimaryContacts now primaryIds allContacts s).2 := by
  unfold mergePrimaryContacts
  dsimp only
  split
  · exact evolves_refl s
  · exact evolves_refl s
  · exact evolves_foldl (fun st l => evolves_mergeLoserStep now _ allContacts st l) _ s

theorem evolves_createSecondaryIfNeeded (now : Nat) (email phoneNumber : Option String)
    (contacts : List Contact) (s : Store) :
    Evolves s (createSecondaryIfNeeded now email phoneNumber contacts s).2 := by
  unfold createSecondaryIfNeeded
  split
  · exact evolves_refl s
  · dsimp only
    split
    · exact evolves_refl s
    · split
      · exact evolves_createContact ..
      · exact evolves_refl s

theorem identify_eq (now : Nat) (reqEmail reqPhone : Option String) (s : Store) :
    identify now reqEmail reqPhone s =
      if normalizeField reqEmail = none ∧ normalizeField reqPhone = none then
        (Except.error IdErr.validation, s)
      else if (findByEmailOrPhone (normalizeField reqEmail) (normalizeField reqPhone) s).isEmpty then
        createNewPrimaryContact now (normalizeField reqEmail) (normalizeField reqPhone) s
      else
        (buildResponse (pipelineFinal now (normalizeField reqEmail) (normalizeField reqPhone) s).1,
          (pipelineFinal now (normalizeField reqEmail) (normalizeField reqPhone) s).2) := rfl

theorem evolves_pipelineMerged (now : Nat) (email phone : Option String) (s : Store) :
    Evolves s (pipelineMerged now email phone s).2 := by
  unfold pipelineMerged
  dsimp only
  split
  · exact evolves_mergePrimaryContacts ..
  · exact evolves_refl s

theorem evolves_pipelineFinal (now : Nat) (email phone : Option String) (s : Store) :
    Evolves s (pipelineFinal now email phone s).2 := by
  unfold pipelineFinal
  exact evolves_trans (evolves_pipelineMerged ..) (evolves_createSecondaryIfNeeded ..)

theorem evolves_identify (now : Nat) (reqEmail reqPhone : Option String) (s : Store) :
    Evolves s (identify now reqEmail reqPhone s).2 := by
  rw [identify_eq]
  split
  · exact evolves_refl s
  · split
    · exact evolves_createContact ..
    · exact evolves_pipelineFinal ..

/-! ### Query and responder characterisations -/

theorem mem_findByEmailOrPhone {email phone : Option String} {s : Store} {c : Contact} :
    c ∈ findByEmailOrPhone email phone s ↔
      c ∈ s.contacts ∧ (alive c &&
        ((truthy email && c.email == email) || (truthy phone && c.phoneNumber == phone))) = true := by
  unfold findByEmailOrPhone
  rw [List.mem_insertionSort, List.mem_filter]

theorem findByEmailOrPhone_none_none (s : Store) : findByEmailOrPhone none none s = [] := by
  unfold findByEmailOrPhone
  simp [truthy]

theorem mem_findAllLinkedContacts {ids : List Nat} {s : Store} {c : Contact} :
    c ∈ findAllLinkedContacts ids s ↔
      ¬ids.isEmpty ∧ c ∈ s.contacts ∧ (alive c && linkedToAny ids c) = true := by
  unfold findAllLinkedContacts
  split
  · simp_all
  · rw [List.mem_insertionSort, List.mem_filter]
    simp_all

theorem buildResponse_error_iff (contacts : List Contact) :
    buildResponse contacts = Except.error IdErr.integrity ↔
      ∀ c ∈ contacts, c.linkPrecedence ≠ LinkPrecedence.primary := by
  unfold buildResponse
  dsimp only
  split
  · rename_i hf
    rw [List.find?_eq_none] at hf
    simp only [true_iff]
    intro c hc hp
    have h2 := hf c ((List.mem_insertionSort respLe).2 hc)
    rw [hp] at h2
    simp at h2
  · rename_i prim hf
    have hmem := List.mem_of_find?_eq_some hf
    have hpred := List.find?_some hf
    rw [List.mem_insertionSort] at hmem
    constructor
    · intro h
      cases h
    · intro h
      exact absurd (by simpa using hpred) (h prim hmem)

theorem buildResponse_ne_validation (contacts : List Contact) :
    buildResponse contacts ≠ Except.error IdErr.validation := by
  unfold buildResponse
  dsimp only
  split <;> simp

theorem normalizeField_eq_none (v : Option String) : normalizeField v = none ↔ blank v := by
  unfold normalizeField blank
  match v with
  | none => simp
  | some w =>
    dsimp only
    split <;> simp_all

/-! ### Claims C8, C9, C10 -/

/-- C8: a request whose two fields are both absent, null or
whitespace-only is rejected with `ValidationError` and the store is left
unchanged; any other request never raises `ValidationError`. -/
theorem identify_validation_guard (now : Nat) (e p : Option String) (s : Store) :
    (blank e ∧ blank p → identify now e p s = (Except.error IdErr.validation, s)) ∧
    (¬(blank e ∧ blank p) → (identify now e p s).1 ≠ Except.error IdErr.validation) := by
  constructor
  · rintro ⟨he, hp⟩
    rw [identify_eq,
      if_pos ⟨(normalizeField_eq_none e).2 he, (normalizeField_eq_none p).2 hp⟩]
  · intro h
    rw [identify_eq,
      if_neg (fun hc => h ⟨(normalizeField_eq_none e).1 hc.1, (normalizeField_eq_none p).1 hc.2⟩)]
    split
    · unfold createNewPrimaryContact createContact
      simp
    · exact buildResponse_ne_validation _

/-- Closed instance of `identify_validation_guard`: a whitespace-only
email together with an absent phone is rejected on the empty store, while
a plain email passes the guard. -/
theorem identify_validation_guard_witness :
    identify 3 (some ("   ")) none { contacts := [], nextId := 1 } =
      (Except.error IdErr.validation, { contacts := [], nextId := 1 }) ∧
    (identify 3 (some ("a")) none { contacts := [], nextId := 1 }).1 ≠
      Except.error IdErr.validation :=
  ⟨(identify_validation_guard 3 (some ("   ")) none _).1 (by constructor <;> decide),
   (identify_validation_guard 3 (some ("a")) none _).2 (by intro h; exact absurd h.1 (by decide))⟩

/-- C9: `identify` never removes a row and never changes an existing
row's `id`, `email`, `phoneNumber`, `createdAt` or `deletedAt`; only
`linkedId`, `linkPrecedence` and `updatedAt` may change. -/
theorem identify_frame_effect (now : Nat) (e p : Option String) (s : Store) :
    s.contacts.length ≤ ((identify now e p s).2).contacts.length ∧
    ∀ c ∈ s.contacts, ∃ c' ∈ ((identify now e p s).2).contacts,
      c'.id = c.id ∧ c'.email = c.email ∧ c'.phoneNumber = c.phoneNumber ∧
        c'.createdAt = c.createdAt ∧ c'.deletedAt = c.deletedAt :=
  evolves_identify now e p s

/-- Closed instance of `identify_frame_effect` on the spec's seed pair:
the demoted contact 27 keeps its identity fields. -/
theorem identify_frame_effect_witness :
    ∃ c' ∈ ((identify 30 (some ("george")) (some ("717171")) storeSpecPair).2).contacts,
      c'.id = (mkContact 27 (some ("biff")) (some ("717171")) none .primary 21).id ∧
      c'.email = (mkContact 27 (some ("biff")) (some ("717171")) none .primary 21).email ∧
      c'.phoneNumber = (mkContact 27 (some ("biff")) (some ("717171")) none .primary 21).phoneNumber ∧
      c'.createdAt = (mkContact 27 (some ("biff")) (some ("717171")) none .primary 21).createdAt ∧
      c'.deletedAt = (mkContact 27 (some ("biff")) (some ("717171")) none .primary 21).deletedAt :=
  (identify_frame_effect 30 (some ("george")) (some ("717171")) storeSpecPair).2 _ (by decide)

theorem resolvePrimaryIds_nil_of {l : List Contact}
    (h : ∀ c ∈ l, c.linkPrecedence = LinkPrecedence.secondary ∧ c.linkedId = none) :
    resolvePrimaryIds l = [] := by
  unfold resolvePrimaryIds
  suffices haux : ∀ acc, l.foldl
      (fun acc c =>
        if c.linkPrecedence = LinkPrecedence.primary then addUnique acc c.id
        else
          match c.linkedId with
          | some l => addUnique acc l
          | none => acc) acc = acc from haux []
  induction l with
  | nil => intro acc; rfl
  | cons c cs ih =>
    intro acc
    obtain ⟨hsec, hnone⟩ := h c (by simp)
    rw [List.foldl_cons, if_neg (by simp [hsec]), hnone]
    exact ih (fun d hd => h d (by simp [hd])) acc

/-- C10: when every matched contact is a secondary with a null
`linkedId`, no primary id is resolved, nothing is written, and `identify`
fails with the internal integrity error. -/
theorem identify_no_primary_resolved (now : Nat) (e p : Option String) (s : Store)
    (hne : findByEmailOrPhone (normalizeField e) (normalizeField p) s ≠ [])
    (hall : ∀ c ∈ findByEmailOrPhone (normalizeField e) (normalizeField p) s,
      c.linkPrecedence = LinkPrecedence.secondary ∧ c.linkedId = none) :
    identify now e p s = (Except.error IdErr.integrity, s) := by
  have hval : ¬(normalizeField e = none ∧ normalizeField p = none) := by
    rintro ⟨h1, h2⟩
    rw [h1, h2] at hne
    exact hne (findByEmailOrPhone_none_none s)
  have h1 : resolvePrimaryIds (findByEmailOrPhone (normalizeField e) (normalizeField p) s) = [] :=
    resolvePrimaryIds_nil_of hall
  have h2 : pipelineMerged now (normalizeField e) (normalizeField p) s = ([], s) := by
    unfold pipelineMerged
    rw [h1]
    rfl
  have h3 : pipelineFinal now (normalizeField e) (normalizeField p) s = ([], s) := by
    unfold pipelineFinal
    rw [h2]
    rfl
  rw [identify_eq, if_neg hval, if_neg (by simpa using hne), h3]
  rfl

/-- Closed instance of `identify_no_primary_resolved`: a store holding a
single unlinked secondary produces the integrity error. -/
theorem identify_no_primary_resolved_witness :
    identify 5 (some ("a")) none storeOrphanSecondary =
      (Except.error IdErr.integrity, storeOrphanSecondary) :=
  identify_no_primary_resolved 5 (some ("a")) none storeOrphanSecondary
    (by decide) (by decide)

/-! ### Claims C6 and C7 -/

theorem foldl_store_length {β : Type} {f : Store → β → Store}
    (hf : ∀ st b, (f st b).contacts.length = st.contacts.length) :
    ∀ (l : List β) (s : Store), (l.foldl f s).contacts.length = s.contacts.length := by
  intro l
  induction l with
  | nil => intro s; rfl
  | cons b bs ih => intro s; rw [List.foldl_cons, ih, hf]

theorem mergeLoserStep_length (now winnerId : Nat) (allContacts : List Contact)
    (st : Store) (loser : Contact) :
    (mergeLoserStep now winnerId allContacts st loser).contacts.length = st.contacts.length := by
  unfold mergeLoserStep
  rw [foldl_store_length (fun st2 o => updateContact_length ..), updateContact_length]

theorem mergePrimaryContacts_store_length (now : Nat) (primaryIds : List Nat)
    (allContacts : List Contact) (s : Store) :
    ((mergePrimaryContacts now primaryIds allContacts s).2).contacts.length =
      s.contacts.length := by
  unfold mergePrimaryContacts
  dsimp only
  split
  · rfl
  · rfl
  · exact foldl_store_length (fun st l => mergeLoserStep_length ..) _ s

theorem pipelineMerged_store_length (now : Nat) (email phone : Option String) (s : Store) :
    ((pipelineMerged now email phone s).2).contacts.length = s.contacts.length := by
  unfold pipelineMerged
  dsimp only
  split
  · exact mergePrimaryContacts_store_length ..
  · rfl

theorem createSecondaryIfNeeded_of_exact {now : Nat} {email phoneNumber : Option String}
    {contacts : List Contact} {s : Store}
    (h : ∃ c ∈ contacts,
      (email.isNone ∨ c.email = email) ∧ (phoneNumber.isNone ∨ c.phoneNumber = phoneNumber)) :
    createSecondaryIfNeeded now email phoneNumber contacts s = (contacts, s) := by
  unfold createSecondaryIfNeeded
  split
  · rfl
  · dsimp only
    rw [if_pos]
    rw [List.any_eq_true]
    obtain ⟨c, hc, he, hp⟩ := h
    refine ⟨c, hc, ?_⟩
    rw [Bool.and_eq_true, Bool.or_eq_true, Bool.or_eq_true]
    constructor
    · rcases he with he | he
      · exact Or.inl (by simpa using he)
      · exact Or.inr (by simpa using he)
    · rcases hp with hp | hp
      · exact Or.inl (by simpa using hp)
      · exact Or.inr (by simpa using hp)

/-- C6: a request whose `(email, phoneNumber)` pair — matched
field-by-field, an absent field matching anything — already occurs in the
merged cluster creates no new contact row. -/
theorem exact_pair_creates_no_row (now : Nat) (e p : Option String) (s : Store)
    (hmatch : findByEmailOrPhone (normalizeField e) (normalizeField p) s ≠ [])
    (hexact : ∃ c ∈ (pipelineMerged now (normalizeField e) (normalizeField p) s).1,
      ((normalizeField e).isNone ∨ c.email = normalizeField e) ∧
      ((normalizeField p).isNone ∨ c.phoneNumber = normalizeField p)) :
    ((identify now e p s).2).contacts.length = s.contacts.length := by
  have hval : ¬(normalizeField e = none ∧ normalizeField p = none) := by
    rintro ⟨h1, h2⟩
    rw [h1, h2] at hmatch
    exact hmatch (findByEmailOrPhone_none_none s)
  rw [identify_eq, if_neg hval, if_neg (by simpa using hmatch)]
  show ((pipelineFinal now (normalizeField e) (normalizeField p) s).2).contacts.length = _
  unfold pipelineFinal
  rw [createSecondaryIfNeeded_of_exact hexact]
  exact pipelineMerged_store_length ..

/-- Closed instance of `exact_pair_creates_no_row`: re-identifying the
seeded primary's email alone adds no row. -/
theorem exact_pair_creates_no_row_witness :
    ((identify 40 (some ("george")) none storeSpecPair).2).contacts.length =
      storeSpecPair.contacts.length :=
  exact_pair_creates_no_row 40 (some ("george")) none storeSpecPair
    (by decide) (by decide)

/-- C7 (amended): the responder raises the integrity error exactly when
the final cluster contains no primary at all; a cluster with more than
one primary is not rejected — the first primary in sorted order is used. -/
theorem responder_integrity_error_iff (contacts : List Contact) :
    buildResponse contacts = Except.error IdErr.integrity ↔
      ∀ c ∈ contacts, c.linkPrecedence ≠ LinkPrecedence.primary :=
  buildResponse_error_iff contacts

/-- Closed instance of `responder_integrity_error_iff` at the empty
cluster. -/
theorem responder_integrity_error_iff_witness :
    buildResponse [] = Except.error IdErr.integrity :=
  (responder_integrity_error_iff []).2 (by simp)

/-- C7 counterexample: on a (corrupt) store whose cluster fetch returns
two rows with PRIMARY precedence, `identify` does not abort: it answers
with the first primary, contradicting the claim that more than one
primary is a fatal integrity error. -/
theorem responder_multi_primary_counterexample :
    ((pipelineFinal 9 (some ("a")) (some ("1")) storeTwoPrimaries).1.countP
        (fun c => c.linkPrecedence == LinkPrecedence.primary)) = 2 ∧
    (identify 9 (some ("a")) (some ("1")) storeTwoPrimaries).1 =
      Except.ok
        { primaryContatctId := 1, emails := [("a"), ("b")],
          phoneNumbers := [("1"), ("2")], secondaryContactIds := [] } := by
  constructor
  · decide
  · decide

/-! ### Characterising the merge loop -/

theorem applyUpdate_id (now : Nat) (v : Option (Option Nat)) (p : Option LinkPrecedence)
    (c : Contact) : (applyUpdate now v p c).id = c.id := rfl

theorem applyUpdate_idem (now : Nat) (v : Option (Option Nat)) (c : Contact) :
    applyUpdate now v none (applyUpdate now v none c) = applyUpdate now v none c := by
  cases v <;> rfl

theorem foldl_update_by_id (now : Nat) (v : Option (Option Nat)) (os : List Contact) :
    ∀ c : Contact,
      os.foldl (fun cc o => if cc.id = o.id then applyUpdate now v none cc else cc) c =
        if ∃ o ∈ os, o.id = c.id then applyUpdate now v none c else c := by
  induction os with
  | nil => intro c; simp
  | cons o os ih =>
    intro c
    rw [List.foldl_cons]
    by_cases h : c.id = o.id
    · rw [if_pos h, ih (applyUpdate now v none c)]
      by_cases h2 : ∃ o1 ∈ os, o1.id = (applyUpdate now v none c).id
      · rw [if_pos h2, if_pos ⟨o, List.mem_cons_self o os, h.symm⟩, applyUpdate_idem]
      · rw [if_neg h2, if_pos ⟨o, List.mem_cons_self o os, h.symm⟩]
    · rw [if_neg h, ih c]
      by_cases h2 : ∃ o1 ∈ os, o1.id = c.id
      · rw [if_pos h2, if_pos (by obtain ⟨o1, ho1, he⟩ := h2; exact ⟨o1, by simp [ho1], he⟩)]
      · rw [if_neg h2, if_neg]
        rintro ⟨o1, ho1, he⟩
        rcases List.mem_cons.1 ho1 with rfl | ho1
        · exact h he.symm
        · exact h2 ⟨o1, ho1, he⟩

theorem mergeLoserStep_contacts (now winnerId : Nat) (allContacts : List Contact)
    (st : Store) (loser : Contact) :
    (mergeLoserStep now winnerId allContacts st loser).contacts =
      st.contacts.map (applyMergeLoser now winnerId allContacts loser) := by
  unfold mergeLoserStep applyMergeLoser
  dsimp only
  generalize allContacts.filter _ = os
  have haux : ∀ (st2 : Store),
      ((os.foldl (fun st2 o => updateContact now o.id (some (some winnerId)) none st2) st2).contacts) =
        st2.contacts.map fun c =>
          os.foldl (fun cc o => if cc.id = o.id then applyUpdate now (some (some winnerId)) none cc else cc) c := by
    clear st
    induction os with
    | nil => intro st2; simp
    | cons o os ih =>
      intro st2
      rw [List.foldl_cons, ih, updateContact_contacts, List.map_map]
      apply List.map_congr_left
      intro c _
      rfl
  rw [haux, updateContact_contacts, List.map_map]
  apply List.map_congr_left
  intro c _
  rfl

theorem mergeFold_store_contacts (now winnerId : Nat) (allContacts : List Contact)
    (losers : List Contact) :
    ∀ st : Store,
      ((losers.foldl (mergeLoserStep now winnerId allContacts) st).contacts) =
        st.contacts.map (mergeFoldC now winnerId allContacts losers) := by
  induction losers with
  | nil =>
    intro st
    unfold mergeFoldC
    simp
  | cons l ls ih =>
    intro st
    rw [List.foldl_cons, ih, mergeLoserStep_contacts, List.map_map]
    apply List.map_congr_left
    intro c _
    unfold mergeFoldC
    rw [List.foldl_cons]
    rfl

theorem applyMergeLoser_eq (now winnerId : Nat) (allContacts : List Contact)
    (loser c : Contact) :
    applyMergeLoser now winnerId allContacts loser c =
      if c.id = loser.id then
        applyUpdate now (some (some winnerId)) (some LinkPrecedence.secondary) c
      else if ∃ o ∈ allContacts, o.linkedId = some loser.id ∧ o.id ≠ loser.id ∧ o.id = c.id then
        applyUpdate now (some (some winnerId)) none c
      else c := by
  unfold applyMergeLoser
  dsimp only
  by_cases h : c.id = loser.id
  · simp only [if_pos h]
    rw [foldl_update_by_id, if_neg]
    rintro ⟨o, ho, hoid⟩
    rw [List.mem_filter, Bool.and_eq_true] at ho
    have hne : o.id ≠ loser.id := by simpa using ho.2.2
    exact hne (by rw [hoid, applyUpdate_id, h])
  · simp only [if_neg h]
    rw [foldl_update_by_id]
    refine if_congr ?_ rfl rfl
    constructor
    · rintro ⟨o, ho, hoid⟩
      rw [List.mem_filter, Bool.and_eq_true] at ho
      exact ⟨o, ho.1, by simpa using ho.2.1, by simpa using ho.2.2, hoid⟩
    · rintro ⟨o, ho, h1, h2, h3⟩
      refine ⟨o, List.mem_filter.2 ⟨ho, ?_⟩, h3⟩
      rw [Bool.and_eq_true]
      exact ⟨by simpa using h1, by simpa using h2⟩

theorem mergeFoldC_untouched (now winnerId : Nat) (allContacts : List Contact) :
    ∀ (losers : List Contact) (c : Contact),
      (∀ l ∈ losers, c.id ≠ l.id) →
      (∀ l ∈ losers, ∀ o ∈ allContacts, o.id = c.id → o.linkedId ≠ some l.id) →
      mergeFoldC now winnerId allContacts losers c = c := by
  intro losers
  induction losers with
  | nil => intro c _ _; rfl
  | cons l ls ih =>
    intro c h1 h2
    unfold mergeFoldC
    rw [List.foldl_cons, applyMergeLoser_eq, if_neg (h1 l (List.mem_cons_self l ls)), if_neg]
    · exact ih c (fun l' hl' => h1 l' (List.mem_cons_of_mem l hl'))
        (fun l' hl' => h2 l' (List.mem_cons_of_mem l hl'))
    · rintro ⟨o, ho, holid, hne, hoid⟩
      exact h2 l (List.mem_cons_self l ls) o ho hoid holid

theorem mergeFoldC_demotes (now winnerId : Nat) (allContacts : List Contact) :
    ∀ (losers : List Contact) (c loser : Contact),
      loser ∈ losers → c.id = loser.id →
      (losers.map (fun l => l.id)).Nodup →
      (∀ l ∈ losers, ∀ o ∈ allContacts, o.id = c.id → o.linkedId ≠ some l.id) →
      mergeFoldC now winnerId allContacts losers c =
        applyUpdate now (some (some winnerId)) (some LinkPrecedence.secondary) c := by
  intro losers
  induction losers with
  | nil => intro c loser h; cases h
  | cons l ls ih =>
    intro c loser hmem hid hnd horph
    unfold mergeFoldC
    rw [List.foldl_cons, applyMergeLoser_eq]
    by_cases hcl : c.id = l.id
    · rw [if_pos hcl]
      apply mergeFoldC_untouched
      · intro l' hl' he
        rw [applyUpdate_id] at he
        rw [List.map_cons, List.nodup_cons] at hnd
        have hll : l.id = l'.id := hcl.symm.trans he
        exact hnd.1 (by rw [hll]; exact List.mem_map.2 ⟨l', hl', rfl⟩)
      · intro l' hl' o ho hoid
        rw [applyUpdate_id] at hoid
        exact horph l' (List.mem_cons_of_mem l hl') o ho hoid
    · rw [if_neg hcl, if_neg]
      · rcases List.mem_cons.1 hmem with rfl | hmem'
        · exact absurd hid hcl
        · rw [List.map_cons, List.nodup_cons] at hnd
          exact ih c loser hmem' hid hnd.2
            (fun l' hl' => horph l' (List.mem_cons_of_mem l hl'))
      · rintro ⟨o, ho, holid, hne, hoid⟩
        exact horph l (List.mem_cons_self l ls) o ho hoid holid

theorem mergeFoldC_repoints (now winnerId : Nat) (allContacts : List Contact) :
    ∀ (losers : List Contact) (c : Contact) (lid : Nat),
      lid ∈ losers.map (fun l => l.id) → c.linkedId = some lid →
      (∀ l ∈ losers, c.id ≠ l.id) →
      c ∈ allContacts →
      (∀ o ∈ allContacts, o.id = c.id → o = c) →
      (losers.map (fun l => l.id)).Nodup →
      mergeFoldC now winnerId allContacts losers c =
        applyUpdate now (some (some winnerId)) none c := by
  intro losers
  induction losers with
  | nil => intro c lid h; cases h
  | cons l ls ih =>
    intro c lid hlid hclid hids hcin huniq hnd
    unfold mergeFoldC
    rw [List.foldl_cons, applyMergeLoser_eq, if_neg (hids l (List.mem_cons_self l ls))]
    rw [List.map_cons, List.nodup_cons] at hnd
    by_cases hl : lid = l.id
    · rw [if_pos ⟨c, hcin, by rw [hclid, hl], hids l (List.mem_cons_self l ls), rfl⟩]
      apply mergeFoldC_untouched
      · intro l' hl' he
        rw [applyUpdate_id] at he
        exact hids l' (List.mem_cons_of_mem l hl') he
      · intro l' hl' o ho hoid
        rw [applyUpdate_id] at hoid
        have hoc : o = c := huniq o ho hoid
        rw [hoc, hclid, hl]
        intro hcon
        have : l.id = l'.id := by injection hcon
        exact hnd.1 (this ▸ List.mem_map.2 ⟨l', hl', rfl⟩)
    · rw [if_neg]
      · rcases List.mem_cons.1 hlid with h1 | h1
        · exact absurd h1 hl
        · exact ih c lid h1 hclid (fun l' hl' => hids l' (List.mem_cons_of_mem l hl'))
            hcin huniq hnd.2
      · rintro ⟨o, ho, holid, hne, hoid⟩
        have hoc : o = c := huniq o ho hoid
        rw [hoc, hclid] at holid
        exact hl (by injection holid)

theorem merge_fold_eq_mergedContact (now winnerId : Nat) (allContacts : List Contact)
    (losers : List Contact) (s : Store)
    (hnodup : (s.contacts.map (fun c => c.id)).Nodup)
    (hallsub : ∀ o ∈ allContacts, o ∈ s.contacts)
    (hallalive : ∀ o ∈ allContacts, alive o = true)
    (hlos : ∀ l ∈ losers, l ∈ s.contacts ∧ l.linkedId = none)
    (hlonodup : (losers.map (fun l => l.id)).Nodup)
    (hcover : ∀ c ∈ s.contacts, alive c = true →
      (∃ lid ∈ losers.map (fun l => l.id), c.linkedId = some lid) → c ∈ allContacts) :
    ∀ c ∈ s.contacts, mergeFoldC now winnerId allContacts losers c =
      mergedContact now winnerId (losers.map (fun l => l.id)) c := by
  intro c hc
  have hinj : ∀ x ∈ s.contacts, ∀ y ∈ s.contacts, x.id = y.id → x = y := by
    intro x hx y hy hxy
    exact List.inj_on_of_nodup_map hnodup hx hy hxy
  unfold mergedContact
  by_cases h1 : c.id ∈ losers.map (fun l => l.id)
  · rw [if_pos h1]
    obtain ⟨l, hl, hlid⟩ := List.mem_map.1 h1
    refine mergeFoldC_demotes now winnerId allContacts losers c l hl hlid.symm hlonodup ?_
    intro l' hl' o ho hoid
    have hoc : o = c := hinj o (hallsub o ho) c hc hoid
    have hcl : c = l := hinj c hc l (hlos l hl).1 hlid.symm
    rw [hoc, hcl, (hlos l hl).2]
    simp
  · rw [if_neg h1]
    by_cases h2 : alive c = true ∧ ∃ lid ∈ losers.map (fun l => l.id), c.linkedId = some lid
    · rw [if_pos h2]
      obtain ⟨hal, lid, hlidmem, hclid⟩ := h2
      refine mergeFoldC_repoints now winnerId allContacts losers c lid hlidmem hclid
        ?_ (hcover c hc hal ⟨lid, hlidmem, hclid⟩)
        (fun o ho hoid => hinj o (hallsub o ho) c hc hoid) hlonodup
      intro l hl he
      exact h1 (List.mem_map.2 ⟨l, hl, he.symm⟩)
    · rw [if_neg h2]
      apply mergeFoldC_untouched
      · intro l hl he
        exact h1 (List.mem_map.2 ⟨l, hl, he.symm⟩)
      · intro l hl o ho hoid holid
        have hoc : o = c := hinj o (hallsub o ho) c hc hoid
        apply h2
        constructor
        · rw [← hoc]
          exact hallalive o ho
        · exact ⟨l.id, List.mem_map.2 ⟨l, hl, rfl⟩, by rw [← hoc]; exact holid⟩

theorem mergePrimaryContacts_store_contacts (now : Nat) (primaryIds : List Nat)
    (allContacts : List Contact) (s : Store) (w l0 : Contact) (rest : List Contact)
    (hsort : List.insertionSort leCreated (allContacts.filter fun c =>
        primaryIds.contains c.id && c.linkPrecedence == LinkPrecedence.primary) =
        w :: l0 :: rest)
    (hnodup : (s.contacts.map (fun c => c.id)).Nodup)
    (hallsub : ∀ o ∈ allContacts, o ∈ s.contacts)
    (hallalive : ∀ o ∈ allContacts, alive o = true)
    (hlos : ∀ l ∈ l0 :: rest, l ∈ s.contacts ∧ l.linkedId = none)
    (hlonodup : ((l0 :: rest).map (fun l => l.id)).Nodup)
    (hcover : ∀ c ∈ s.contacts, alive c = true →
      (∃ lid ∈ (l0 :: rest).map (fun l => l.id), c.linkedId = some lid) → c ∈ allContacts) :
    ((mergePrimaryContacts now primaryIds allContacts s).2).contacts =
      s.contacts.map (mergedContact now w.id ((l0 :: rest).map (fun l => l.id))) := by
  unfold mergePrimaryContacts
  rw [hsort]
  dsimp only
  rw [mergeFold_store_contacts]
  apply List.map_congr_left
  intro c hc
  exact merge_fold_eq_mergedContact now w.id allContacts (l0 :: rest) s hnodup hallsub
    hallalive hlos hlonodup hcover c hc

/-! ### Facts derived from well-formedness -/

theorem nodup_ids_insertionSort (r : Contact → Contact → Prop) [DecidableRel r]
    (l : List Contact) (h : (l.map (fun c => c.id)).Nodup) :
    ((List.insertionSort r l).map (fun c => c.id)).Nodup :=
  (((List.perm_insertionSort r l).map (fun c => c.id)).nodup_iff).2 h

theorem nodup_ids_filter (p : Contact → Bool) (l : List Contact)
    (h : (l.map (fun c => c.id)).Nodup) :
    ((l.filter p).map (fun c => c.id)).Nodup :=
  h.sublist ((List.filter_sublist l).map (fun c => c.id))

theorem findAllLinkedContacts_nodup_ids (ids : List Nat) (s : Store)
    (h : (s.contacts.map (fun c => c.id)).Nodup) :
    ((findAllLinkedContacts ids s).map (fun c => c.id)).Nodup := by
  unfold findAllLinkedContacts
  split
  · simp
  · exact nodup_ids_insertionSort _ _ (nodup_ids_filter _ _ h)

theorem mergedContact_id (now winnerId : Nat) (loserIds : List Nat) (c : Contact) :
    (mergedContact now winnerId loserIds c).id = c.id := by
  unfold mergedContact
  split
  · rfl
  · split <;> rfl

theorem mergedContact_email (now winnerId : Nat) (loserIds : List Nat) (c : Contact) :
    (mergedContact now winnerId loserIds c).email = c.email := by
  unfold mergedContact
  split
  · rfl
  · split <;> rfl

theorem mergedContact_phone (now winnerId : Nat) (loserIds : List Nat) (c : Contact) :
    (mergedContact now winnerId loserIds c).phoneNumber = c.phoneNumber := by
  unfold mergedContact
  split
  · rfl
  · split <;> rfl

theorem mergedContact_createdAt (now winnerId : Nat) (loserIds : List Nat) (c : Contact) :
    (mergedContact now winnerId loserIds c).createdAt = c.createdAt := by
  unfold mergedContact
  split
  · rfl
  · split <;> rfl

theorem mergedContact_deletedAt (now winnerId : Nat) (loserIds : List Nat) (c : Contact) :
    (mergedContact now winnerId loserIds c).deletedAt = c.deletedAt := by
  unfold mergedContact
  split
  · rfl
  · split <;> rfl

theorem mergedContact_alive (now winnerId : Nat) (loserIds : List Nat) (c : Contact) :
    alive (mergedContact now winnerId loserIds c) = alive c := by
  unfold alive
  rw [mergedContact_deletedAt]

theorem mergedContact_of_loser (now winnerId : Nat) (loserIds : List Nat) (c : Contact)
    (h : c.id ∈ loserIds) :
    mergedContact now winnerId loserIds c =
      applyUpdate now (some (some winnerId)) (some LinkPrecedence.secondary) c := by
  unfold mergedContact
  rw [if_pos h]

theorem mergedContact_of_orphan (now winnerId : Nat) (loserIds : List Nat) (c : Contact)
    (h1 : c.id ∉ loserIds) (h2 : alive c = true) (lid : Nat) (h3 : lid ∈ loserIds)
    (h4 : c.linkedId = some lid) :
    mergedContact now winnerId loserIds c = applyUpdate now (some (some winnerId)) none c := by
  unfold mergedContact
  rw [if_neg h1, if_pos ⟨h2, lid, h3, h4⟩]

theorem mergedContact_of_other (now winnerId : Nat) (loserIds : List Nat) (c : Contact)
    (h1 : c.id ∉ loserIds) (h2 : ¬(alive c = true ∧ ∃ lid ∈ loserIds, c.linkedId = some lid)) :
    mergedContact now winnerId loserIds c = c := by
  unfold mergedContact
  rw [if_neg h1, if_neg h2]

theorem foldl_store_nextId {β : Type} {f : Store → β → Store}
    (hf : ∀ st b, (f st b).nextId = st.nextId) :
    ∀ (l : List β) (s : Store), (l.foldl f s).nextId = s.nextId := by
  intro l
  induction l with
  | nil => intro s; rfl
  | cons b bs ih => intro s; rw [List.foldl_cons, ih, hf]

theorem mergeLoserStep_nextId (now winnerId : Nat) (allContacts : List Contact)
    (st : Store) (loser : Contact) :
    (mergeLoserStep now winnerId allContacts st loser).nextId = st.nextId := by
  unfold mergeLoserStep
  dsimp only
  rw [@foldl_store_nextId Contact
    (fun st2 o => updateContact now o.id (some (some winnerId)) none st2)
    (fun _ _ => rfl) _ _]
  rfl

theorem mergePrimaryContacts_nextId (now : Nat) (primaryIds : List Nat)
    (allContacts : List Contact) (s : Store) :
    ((mergePrimaryContacts now primaryIds allContacts s).2).nextId = s.nextId := by
  unfold mergePrimaryContacts
  dsimp only
  split
  · rfl
  · rfl
  · exact foldl_store_nextId (fun st l => mergeLoserStep_nextId ..) _ s

theorem mem_primariesSort {primaryIds : List Nat} {allContacts : List Contact} {q : Contact}
    (h : q ∈ List.insertionSort leCreated (allContacts.filter fun c =>
      primaryIds.contains c.id && c.linkPrecedence == LinkPrecedence.primary)) :
    q ∈ allContacts ∧ primaryIds.contains q.id = true ∧
      q.linkPrecedence = LinkPrecedence.primary := by
  rw [List.mem_insertionSort, List.mem_filter, Bool.and_eq_true] at h
  exact ⟨h.1, h.2.1, by simpa using h.2.2⟩

theorem merge_context (now : Nat) (primaryIds : List Nat) (s : Store) (hwf : WellFormed s)
    (w l0 : Contact) (rest : List Contact)
    (hsort : List.insertionSort leCreated ((findAllLinkedContacts primaryIds s).filter fun c =>
        primaryIds.contains c.id && c.linkPrecedence == LinkPrecedence.primary) =
        w :: l0 :: rest) :
    (∀ q ∈ w :: l0 :: rest, q ∈ s.contacts ∧ alive q = true ∧
        q.linkPrecedence = LinkPrecedence.primary ∧ q.linkedId = none ∧
        primaryIds.contains q.id = true) ∧
    ((w :: l0 :: rest).map (fun l => l.id)).Nodup ∧
    ((mergePrimaryContacts now primaryIds (findAllLinkedContacts primaryIds s) s).2).contacts =
      s.contacts.map (mergedContact now w.id ((l0 :: rest).map (fun l => l.id))) := by
  obtain ⟨hnodup, hlt, hfield, hInv2, hInv3⟩ := hwf
  have hqfacts : ∀ q ∈ w :: l0 :: rest, q ∈ s.contacts ∧ alive q = true ∧
      q.linkPrecedence = LinkPrecedence.primary ∧ q.linkedId = none ∧
      primaryIds.contains q.id = true := by
    intro q hq
    have hq2 : q ∈ List.insertionSort leCreated
        ((findAllLinkedContacts primaryIds s).filter fun c =>
          primaryIds.contains c.id && c.linkPrecedence == LinkPrecedence.primary) := by
      rw [hsort]
      exact hq
    obtain ⟨hqall, hqin, hqprim⟩ := mem_primariesSort hq2
    obtain ⟨-, hqs, hcond⟩ := mem_findAllLinkedContacts.1 hqall
    rw [Bool.and_eq_true] at hcond
    exact ⟨hqs, hcond.1, hqprim, hInv2 q hqs hcond.1 hqprim, hqin⟩
  have hnodupP : ((w :: l0 :: rest).map (fun l => l.id)).Nodup := by
    have h2 := nodup_ids_insertionSort leCreated _
      (nodup_ids_filter
        (fun c => primaryIds.contains c.id && c.linkPrecedence == LinkPrecedence.primary) _
        (findAllLinkedContacts_nodup_ids primaryIds s hnodup))
    rw [hsort] at h2
    exact h2
  refine ⟨hqfacts, hnodupP, ?_⟩
  have hpne : primaryIds.isEmpty = false := by
    cases hp : primaryIds with
    | nil =>
      have := (hqfacts w (List.mem_cons_self ..)).2.2.2.2
      rw [hp] at this
      cases this
    | cons a as => rfl
  apply mergePrimaryContacts_store_contacts now primaryIds _ s w l0 rest hsort hnodup
  · intro o ho
    exact (mem_findAllLinkedContacts.1 ho).2.1
  · intro o ho
    have h3 := (mem_findAllLinkedContacts.1 ho).2.2
    rw [Bool.and_eq_true] at h3
    exact h3.1
  · intro l hl
    have h4 := hqfacts l (List.mem_cons_of_mem w hl)
    exact ⟨h4.1, h4.2.2.2.1⟩
  · exact (List.nodup_cons.1 hnodupP).2
  · rintro c hc hal ⟨lid, hlidmem, hclid⟩
    apply mem_findAllLinkedContacts.2
    have hne2 : ¬primaryIds.isEmpty = true := by
      rw [hpne]
      simp
    refine ⟨hne2, hc, ?_⟩
    rw [Bool.and_eq_true]
    refine ⟨hal, ?_⟩
    unfold linkedToAny
    rw [hclid, Bool.or_eq_true]
    right
    obtain ⟨l, hl, hlid⟩ := List.mem_map.1 hlidmem
    rw [← hlid]
    exact (hqfacts l (List.mem_cons_of_mem w hl)).2.2.2.2

theorem applyUpdate_linkPrecedence_some (now : Nat) (v : Option (Option Nat))
    (p : LinkPrecedence) (c : Contact) :
    (applyUpdate now v (some p) c).linkPrecedence = p := rfl

theorem applyUpdate_linkPrecedence_none (now : Nat) (v : Option (Option Nat)) (c : Contact) :
    (applyUpdate now v none c).linkPrecedence = c.linkPrecedence := rfl

theorem applyUpdate_linkedId_some (now : Nat) (v : Option Nat)
    (p : Option LinkPrecedence) (c : Contact) :
    (applyUpdate now (some v) p c).linkedId = v := rfl

theorem wellFormed_merge (now : Nat) (primaryIds : List Nat) (s : Store)
    (hwf : WellFormed s) :
    WellFormed (mergePrimaryContacts now primaryIds (findAllLinkedContacts primaryIds s) s).2 := by
  cases hsort : List.insertionSort leCreated
      ((findAllLinkedContacts primaryIds s).filter fun c =>
        primaryIds.contains c.id && c.linkPrecedence == LinkPrecedence.primary) with
  | nil =>
    have heq : (mergePrimaryContacts now primaryIds (findAllLinkedContacts primaryIds s) s).2 = s := by
      unfold mergePrimaryContacts
      rw [hsort]
    rw [heq]
    exact hwf
  | cons w tail =>
    cases tail with
    | nil =>
      have heq : (mergePrimaryContacts now primaryIds (findAllLinkedContacts primaryIds s) s).2 = s := by
        unfold mergePrimaryContacts
        rw [hsort]
      rw [heq]
      exact hwf
    | cons l0 rest =>
      obtain ⟨hq, hnodupP, hmap⟩ := merge_context now primaryIds s hwf w l0 rest hsort
      obtain ⟨hw_s, hw_alive, hw_prim, hw_lid, -⟩ := hq w (List.mem_cons_self ..)
      obtain ⟨hnodup, hlt, hfield, hInv2, hInv3⟩ := hwf
      have hwid : w.id ∉ (l0 :: rest).map (fun l => l.id) := (List.nodup_cons.1 hnodupP).1
      have hFw : mergedContact now w.id ((l0 :: rest).map (fun l => l.id)) w = w := by
        apply mergedContact_of_other _ _ _ _ hwid
        rintro ⟨-, lid, -, hcon⟩
        rw [hw_lid] at hcon
        cases hcon
      have hwitness : ∀ c' : Contact, c'.linkedId = some w.id →
          ∃ q ∈ ((mergePrimaryContacts now primaryIds (findAllLinkedContacts primaryIds s) s).2).contacts,
            alive q = true ∧ c'.linkedId = some q.id ∧
            q.linkPrecedence = LinkPrecedence.primary := by
        intro c' hc'
        refine ⟨w, ?_, hw_alive, hc', hw_prim⟩
        rw [hmap]
        have hmem := List.mem_map_of_mem
          (mergedContact now w.id ((l0 :: rest).map (fun l => l.id))) hw_s
        rwa [hFw] at hmem
      refine ⟨?_, ?_, ?_, ?_, ?_⟩
      · rw [hmap, List.map_map]
        have hcomp : ((fun c : Contact => c.id) ∘
            mergedContact now w.id ((l0 :: rest).map (fun l => l.id))) =
            (fun c : Contact => c.id) := funext fun c => mergedContact_id ..
        rw [hcomp]
        exact hnodup
      · intro c' hc'
        rw [hmap] at hc'
        obtain ⟨c, hc, rfl⟩ := List.mem_map.1 hc'
        rw [mergedContact_id, mergePrimaryContacts_nextId]
        exact hlt c hc
      · intro c' hc' hal
        rw [hmap] at hc'
        obtain ⟨c, hc, rfl⟩ := List.mem_map.1 hc'
        rw [mergedContact_email, mergedContact_phone]
        rw [mergedContact_alive] at hal
        exact hfield c hc hal
      · intro c' hc' hal hprim
        rw [hmap] at hc'
        obtain ⟨c, hc, rfl⟩ := List.mem_map.1 hc'
        rw [mergedContact_alive] at hal
        by_cases hcl : c.id ∈ (l0 :: rest).map (fun l => l.id)
        · rw [mergedContact_of_loser _ _ _ _ hcl, applyUpdate_linkPrecedence_some] at hprim
          cases hprim
        · by_cases ho : alive c = true ∧
              ∃ lid ∈ (l0 :: rest).map (fun l => l.id), c.linkedId = some lid
          · obtain ⟨hal2, lid, hlidm, hclid⟩ := ho
            rw [mergedContact_of_orphan _ _ _ _ hcl hal2 lid hlidm hclid,
              applyUpdate_linkPrecedence_none] at hprim
            have hnone := hInv2 c hc hal2 hprim
            rw [hnone] at hclid
            cases hclid
          · rw [mergedContact_of_other _ _ _ _ hcl ho] at hprim ⊢
            exact hInv2 c hc hal hprim
      · intro c' hc' hal hsec
        rw [hmap] at hc'
        obtain ⟨c, hc, rfl⟩ := List.mem_map.1 hc'
        rw [mergedContact_alive] at hal
        by_cases hcl : c.id ∈ (l0 :: rest).map (fun l => l.id)
        · rw [mergedContact_of_loser _ _ _ _ hcl]
          exact hwitness _ (applyUpdate_linkedId_some ..)
        · by_cases ho : alive c = true ∧
              ∃ lid ∈ (l0 :: rest).map (fun l => l.id), c.linkedId = some lid
          · obtain ⟨hal2, lid, hlidm, hclid⟩ := ho
            rw [mergedContact_of_orphan _ _ _ _ hcl hal2 lid hlidm hclid]
            exact hwitness _ (applyUpdate_linkedId_some ..)
          · rw [mergedContact_of_other _ _ _ _ hcl ho] at hsec ⊢
            obtain ⟨q, hqs, hqal, hclid, hqprim⟩ := hInv3 c hc hal hsec
            have hqid : q.id ∉ (l0 :: rest).map (fun l => l.id) := by
              intro hqin
              exact ho ⟨hal, q.id, hqin, hclid⟩
            have hFq : mergedContact now w.id ((l0 :: rest).map (fun l => l.id)) q = q := by
              apply mergedContact_of_other _ _ _ _ hqid
              rintro ⟨-, lid, -, hcon⟩
              rw [hInv2 q hqs hqal hqprim] at hcon
              cases hcon
            refine ⟨q, ?_, hqal, hclid, hqprim⟩
            rw [hmap]
            have hmem := List.mem_map_of_mem
              (mergedContact now w.id ((l0 :: rest).map (fun l => l.id))) hqs
            rwa [hFq] at hmem

theorem fetch_sub {ids : List Nat} {s : Store} {c : Contact}
    (h : c ∈ findAllLinkedContacts ids s) : c ∈ s.contacts ∧ alive c = true := by
  obtain ⟨-, hcs, hcond⟩ := mem_findAllLinkedContacts.1 h
  rw [Bool.and_eq_true] at hcond
  exact ⟨hcs, hcond.1⟩

theorem wellFormed_createContact (now : Nat) (email phone : Option String)
    (lk : Option Nat) (pr : LinkPrecedence) (s : Store) (hwf : WellFormed s)
    (hfield : email ≠ none ∨ phone ≠ none)
    (hlink : (pr = LinkPrecedence.primary ∧ lk = none) ∨
      (pr = LinkPrecedence.secondary ∧
        ∃ q ∈ s.contacts, alive q = true ∧ lk = some q.id ∧
          q.linkPrecedence = LinkPrecedence.primary)) :
    WellFormed (createContact now email phone lk pr s).2 := by
  obtain ⟨hnodup, hlt, hfields, hInv2, hInv3⟩ := hwf
  unfold createContact
  dsimp only
  refine ⟨?_, ?_, ?_, ?_, ?_⟩
  · rw [List.map_append]
    apply List.Nodup.append hnodup (by simp)
    intro a ha hb
    obtain ⟨c, hc, rfl⟩ := List.mem_map.1 ha
    simp only [List.map_cons, List.map_nil, List.mem_singleton] at hb
    exact absurd (hb ▸ hlt c hc) (Nat.lt_irrefl _)
  · intro c hc
    rcases List.mem_append.1 hc with hc | hc
    · exact Nat.lt_succ_of_lt (hlt c hc)
    · simp only [List.mem_singleton] at hc
      rw [hc]
      exact Nat.lt_succ_self _
  · intro c hc hal
    rcases List.mem_append.1 hc with hc | hc
    · exact hfields c hc hal
    · simp only [List.mem_singleton] at hc
      rw [hc]
      exact hfield
  · intro c hc hal hprim
    rcases List.mem_append.1 hc with hc | hc
    · exact hInv2 c hc hal hprim
    · simp only [List.mem_singleton] at hc
      subst hc
      rcases hlink with ⟨-, hlk⟩ | ⟨hsec, -⟩
      · exact hlk
      · rw [hsec] at hprim
        cases hprim
  · intro c hc hal hsec
    rcases List.mem_append.1 hc with hc | hc
    · obtain ⟨q, hqs, hqal, hclid, hqprim⟩ := hInv3 c hc hal hsec
      exact ⟨q, List.mem_append.2 (Or.inl hqs), hqal, hclid, hqprim⟩
    · simp only [List.mem_singleton] at hc
      subst hc
      rcases hlink with ⟨hprim, -⟩ | ⟨-, q, hqs, hqal, hlk, hqprim⟩
      · rw [hprim] at hsec
        cases hsec
      · exact ⟨q, List.mem_append.2 (Or.inl hqs), hqal, hlk, hqprim⟩

theorem wellFormed_createSecondaryIfNeeded (now : Nat) (email phone : Option String)
    (contacts : List Contact) (s : Store) (hwf : WellFormed s)
    (hsub : ∀ c ∈ contacts, c ∈ s.contacts ∧ alive c = true)
    (hne : ¬(email = none ∧ phone = none)) :
    WellFormed (createSecondaryIfNeeded now email phone contacts s).2 := by
  unfold createSecondaryIfNeeded
  split
  · exact hwf
  · rename_i primary hfind
    dsimp only
    split
    · exact hwf
    · split
      · have hpmem := List.mem_of_find?_eq_some hfind
        have hppred := List.find?_some hfind
        obtain ⟨hps, hpal⟩ := hsub primary hpmem
        have hpprim : primary.linkPrecedence = LinkPrecedence.primary := by simpa using hppred
        apply wellFormed_createContact now email phone (some primary.id)
          LinkPrecedence.secondary s hwf
        · rcases Decidable.not_and_iff_or_not.1 hne with h | h
          · exact Or.inl h
          · exact Or.inr h
        · exact Or.inr ⟨rfl, primary, hps, hpal, rfl, hpprim⟩
      · exact hwf

theorem wellFormed_pipelineMerged (now : Nat) (email phone : Option String) (s : Store)
    (hwf : WellFormed s) : WellFormed (pipelineMerged now email phone s).2 := by
  unfold pipelineMerged
  dsimp only
  split
  · exact wellFormed_merge now _ s hwf
  · exact hwf

theorem pipelineMerged_fst_sub (now : Nat) (email phone : Option String) (s : Store) :
    ∀ c ∈ (pipelineMerged now email phone s).1,
      c ∈ ((pipelineMerged now email phone s).2).contacts ∧ alive c = true := by
  unfold pipelineMerged
  dsimp only
  split
  · unfold mergePrimaryContacts
    dsimp only
    split
    · exact fun c hc => fetch_sub hc
    · exact fun c hc => fetch_sub hc
    · dsimp only
      exact fun c hc => fetch_sub hc
  · exact fun c hc => fetch_sub hc

theorem wellFormed_identify (now : Nat) (e p : Option String) (s : Store)
    (hwf : WellFormed s) : WellFormed (identify now e p s).2 := by
  rw [identify_eq]
  split
  · exact hwf
  · rename_i hne
    split
    · show WellFormed (createContact ..).2
      apply wellFormed_createContact _ _ _ _ _ _ hwf
      · rcases Decidable.not_and_iff_or_not.1 hne with h | h
        · exact Or.inl h
        · exact Or.inr h
      · exact Or.inl ⟨rfl, rfl⟩
    · show WellFormed (pipelineFinal now (normalizeField e) (normalizeField p) s).2
      unfold pipelineFinal
      exact wellFormed_createSecondaryIfNeeded _ _ _ _ _
        (wellFormed_pipelineMerged _ _ _ s hwf)
        (pipelineMerged_fst_sub _ _ _ s) hne

/-! ### Claim C3 -/

/-- C3: a successful `identify` preserves the data-model invariants:
every contact keeps a non-null email or phone, primaries carry no
`linkedId`, and every secondary's `linkedId` names a primary. -/
theorem identify_preserves_invariants (now : Nat) (e p : Option String) (s : Store)
    (hwf : WellFormed s) (_hok : ∃ r, (identify now e p s).1 = Except.ok r) :
    WellFormed (identify now e p s).2 :=
  wellFormed_identify now e p s hwf

/-- Closed instance of `identify_preserves_invariants` on the spec's
merge scenario. -/
theorem identify_preserves_invariants_witness :
    WellFormed ((identify 30 (some ("george")) (some ("717171")) storeSpecPair).2) :=
  identify_preserves_invariants 30 (some ("george")) (some ("717171")) storeSpecPair
    (by decide)
    ⟨{ primaryContatctId := 11, emails := [("george"), ("biff")],
       phoneNumbers := [("919191"), ("717171")], secondaryContactIds := [27] },
     by decide⟩

/-! ### Unique-primary responder facts and merge plumbing -/

theorem applyUpdate_updatedAt (now : Nat) (v : Option (Option Nat))
    (p : Option LinkPrecedence) (c : Contact) : (applyUpdate now v p c).updatedAt = now := rfl

theorem find?_eq_of_unique {l : List Contact} {pred : Contact → Bool} {w : Contact}
    (hw : w ∈ l) (hpw : pred w = true) (huniq : ∀ q ∈ l, pred q = true → q = w) :
    l.find? pred = some w := by
  cases hf : l.find? pred with
  | none =>
    rw [List.find?_eq_none] at hf
    exact absurd hpw (hf w hw)
  | some q =>
    rw [huniq q (List.mem_of_find?_eq_some hf) (List.find?_some hf)]

theorem buildResponse_of_unique_primary {cs : List Contact} {w : Contact}
    (hw : w ∈ cs) (hpw : w.linkPrecedence = LinkPrecedence.primary)
    (huniq : ∀ q ∈ cs, q.linkPrecedence = LinkPrecedence.primary → q = w) :
    buildResponse cs = Except.ok
      { primaryContatctId := w.id,
        emails := collectEmails (List.insertionSort respLe cs),
        phoneNumbers := collectPhones (List.insertionSort respLe cs),
        secondaryContactIds := collectSecondaryIds (List.insertionSort respLe cs) } := by
  unfold buildResponse
  dsimp only
  rw [find?_eq_of_unique ((List.mem_insertionSort respLe).2 hw) (by simpa using hpw)
    (fun q hq hpq => huniq q ((List.mem_insertionSort respLe).1 hq) (by simpa using hpq))]

theorem fetch_by_winner_unique_primary (s1 : Store) (hwf1 : WellFormed s1) (w : Contact)
    (hw : w ∈ s1.contacts) (hal : alive w = true)
    (_hprim : w.linkPrecedence = LinkPrecedence.primary) :
    w ∈ findAllLinkedContacts [w.id] s1 ∧
    ∀ q ∈ findAllLinkedContacts [w.id] s1,
      q.linkPrecedence = LinkPrecedence.primary → q = w := by
  obtain ⟨hnodup, -, -, hInv2, -⟩ := hwf1
  constructor
  · apply mem_findAllLinkedContacts.2
    refine ⟨by simp, hw, ?_⟩
    rw [Bool.and_eq_true]
    refine ⟨hal, ?_⟩
    unfold linkedToAny
    rw [Bool.or_eq_true]
    left
    simp
  · intro q hq hqp
    obtain ⟨-, hqs, hcond⟩ := mem_findAllLinkedContacts.1 hq
    rw [Bool.and_eq_true] at hcond
    have hlq : q.linkedId = none := hInv2 q hqs hcond.1 hqp
    have hcond2 := hcond.2
    unfold linkedToAny at hcond2
    rw [hlq, Bool.or_eq_true] at hcond2
    have hqid : q.id = w.id := by
      rcases hcond2 with h | h
      · simpa using h
      · cases h
    exact List.inj_on_of_nodup_map hnodup hqs hw hqid

theorem mergePrimaryContacts_eq_of_sort (now : Nat) (primaryIds : List Nat)
    (allContacts : List Contact) (s : Store) (w l0 : Contact) (rest : List Contact)
    (hsort : List.insertionSort leCreated (allContacts.filter fun c =>
        primaryIds.contains c.id && c.linkPrecedence == LinkPrecedence.primary) =
        w :: l0 :: rest) :
    mergePrimaryContacts now primaryIds allContacts s =
      (findAllLinkedContacts [w.id] ((l0 :: rest).foldl (mergeLoserStep now w.id allContacts) s),
        (l0 :: rest).foldl (mergeLoserStep now w.id allContacts) s) := by
  unfold mergePrimaryContacts
  rw [hsort]

theorem createSecondaryIfNeeded_cases (now : Nat) (e p : Option String)
    (cs : List Contact) (st : Store) :
    createSecondaryIfNeeded now e p cs st = (cs, st) ∨
    ∃ pim, cs.find? (fun c => c.linkPrecedence == LinkPrecedence.primary) = some pim ∧
      createSecondaryIfNeeded now e p cs st =
        (cs ++ [(createContact now e p (some pim.id) LinkPrecedence.secondary st).1],
          (createContact now e p (some pim.id) LinkPrecedence.secondary st).2) := by
  unfold createSecondaryIfNeeded
  split
  · exact Or.inl rfl
  · rename_i pim hfind
    dsimp only
    split
    · exact Or.inl rfl
    · split
      · exact Or.inr ⟨pim, hfind, rfl⟩
      · exact Or.inl rfl

theorem mem_createSecondaryIfNeeded_store (now : Nat) (e p : Option String)
    (cs : List Contact) (st : Store) {c : Contact} (hc : c ∈ st.contacts) :
    c ∈ ((createSecondaryIfNeeded now e p cs st).2).contacts := by
  rcases createSecondaryIfNeeded_cases now e p cs st with h | ⟨pim, -, h⟩
  · rw [h]
    exact hc
  · rw [h]
    exact List.mem_append.2 (Or.inl hc)

theorem createContact_fst_linkPrecedence (now : Nat) (e p : Option String)
    (lk : Option Nat) (pr : LinkPrecedence) (s : Store) :
    ((createContact now e p lk pr s).1).linkPrecedence = pr := rfl

theorem mergedContact_of_linkedId_none (now winnerId : Nat) (loserIds : List Nat)
    (c : Contact) (h1 : c.id ∉ loserIds) (h2 : c.linkedId = none) :
    mergedContact now winnerId loserIds c = c := by
  apply mergedContact_of_other _ _ _ _ h1
  rintro ⟨-, lid, -, hcon⟩
  rw [h2] at hcon
  cases hcon

theorem length_gt_one_of_two_contains {xs : List Nat} {a b : Nat}
    (ha : xs.contains a = true) (hb : xs.contains b = true) (hab : a ≠ b) :
    xs.length > 1 := by
  cases xs with
  | nil => cases ha
  | cons x xs2 =>
    cases xs2 with
    | nil =>
      have ha2 : a = x := by simpa using ha
      have hb2 : b = x := by simpa using hb
      exact absurd (ha2.trans hb2.symm) hab
    | cons y ys =>
      simp only [List.length_cons]
      omega

theorem identify_merge_spine (now : Nat) (e p : Option String) (s : Store)
    (hwf : WellFormed s)
    (hmatch : findByEmailOrPhone (normalizeField e) (normalizeField p) s ≠ [])
    (w l0 : Contact) (rest : List Contact)
    (hsort : reqPrimariesSorted (normalizeField e) (normalizeField p) s = w :: l0 :: rest) :
    (∀ c ∈ s.contacts,
      mergedContact now w.id ((l0 :: rest).map (fun l => l.id)) c ∈
        ((identify now e p s).2).contacts) ∧
    (∃ r, (identify now e p s).1 = Except.ok r ∧ r.primaryContatctId = w.id) := by
  have hval : ¬(normalizeField e = none ∧ normalizeField p = none) := by
    rintro ⟨h1, h2⟩
    rw [h1, h2] at hmatch
    exact hmatch (findByEmailOrPhone_none_none s)
  unfold reqPrimariesSorted reqPrimaryIds at hsort
  obtain ⟨hq, hnodupP, hmap⟩ := merge_context now _ s hwf w l0 rest hsort
  obtain ⟨hw_s, hw_alive, hw_prim, hw_lid, hw_in⟩ := hq w (List.mem_cons_self ..)
  obtain ⟨hl0_s, -, -, -, hl0_in⟩ :=
    hq l0 (List.mem_cons_of_mem _ (List.mem_cons_self ..))
  have hwid : w.id ∉ (l0 :: rest).map (fun l => l.id) := (List.nodup_cons.1 hnodupP).1
  have hlen : (resolvePrimaryIds
      (findByEmailOrPhone (normalizeField e) (normalizeField p) s)).length > 1 := by
    refine length_gt_one_of_two_contains hw_in hl0_in ?_
    intro hcon
    exact hwid (by rw [hcon]; exact List.mem_map.2 ⟨l0, List.mem_cons_self .., rfl⟩)
  have hpm : pipelineMerged now (normalizeField e) (normalizeField p) s =
      mergePrimaryContacts now
        (resolvePrimaryIds (findByEmailOrPhone (normalizeField e) (normalizeField p) s))
        (findAllLinkedContacts
          (resolvePrimaryIds (findByEmailOrPhone (normalizeField e) (normalizeField p) s)) s)
        s := by
    unfold pipelineMerged
    dsimp only
    rw [if_pos hlen]
  have hM : (mergePrimaryContacts now
        (resolvePrimaryIds (findByEmailOrPhone (normalizeField e) (normalizeField p) s))
        (findAllLinkedContacts
          (resolvePrimaryIds (findByEmailOrPhone (normalizeField e) (normalizeField p) s)) s)
        s).1 =
      findAllLinkedContacts [w.id]
        (mergePrimaryContacts now
          (resolvePrimaryIds (findByEmailOrPhone (normalizeField e) (normalizeField p) s))
          (findAllLinkedContacts
            (resolvePrimaryIds (findByEmailOrPhone (normalizeField e) (normalizeField p) s)) s)
          s).2 := by
    rw [mergePrimaryContacts_eq_of_sort _ _ _ _ w l0 rest hsort]
  have hwf1 := wellFormed_merge now
    (resolvePrimaryIds (findByEmailOrPhone (normalizeField e) (normalizeField p) s)) s hwf
  have hFw : mergedContact now w.id ((l0 :: rest).map (fun l => l.id)) w = w :=
    mergedContact_of_linkedId_none now w.id _ w hwid hw_lid
  have hwS1 : w ∈ ((mergePrimaryContacts now
      (resolvePrimaryIds (findByEmailOrPhone (normalizeField e) (normalizeField p) s))
      (findAllLinkedContacts
        (resolvePrimaryIds (findByEmailOrPhone (normalizeField e) (normalizeField p) s)) s)
      s).2).contacts := by
    rw [hmap]
    have hmem := List.mem_map_of_mem
      (mergedContact now w.id ((l0 :: rest).map (fun l => l.id))) hw_s
    rwa [hFw] at hmem
  obtain ⟨hwM, huniqM⟩ := fetch_by_winner_unique_primary _ hwf1 w hwS1 hw_alive hw_prim
  rw [← hM] at hwM huniqM
  have hid2 : (identify now e p s).2 =
      (createSecondaryIfNeeded now (normalizeField e) (normalizeField p)
        (pipelineMerged now (normalizeField e) (normalizeField p) s).1
        (pipelineMerged now (normalizeField e) (normalizeField p) s).2).2 := by
    rw [identify_eq, if_neg hval, if_neg (by simpa using hmatch)]
    rfl
  have hid1 : (identify now e p s).1 =
      buildResponse (createSecondaryIfNeeded now (normalizeField e) (normalizeField p)
        (pipelineMerged now (normalizeField e) (normalizeField p) s).1
        (pipelineMerged now (normalizeField e) (normalizeField p) s).2).1 := by
    rw [identify_eq, if_neg hval, if_neg (by simpa using hmatch)]
    rfl
  constructor
  · intro c hc
    rw [hid2]
    apply mem_createSecondaryIfNeeded_store
    rw [hpm, hmap]
    exact List.mem_map_of_mem _ hc
  · rw [hid1, hpm]
    rcases createSecondaryIfNeeded_cases now (normalizeField e) (normalizeField p)
        (mergePrimaryContacts now
          (resolvePrimaryIds (findByEmailOrPhone (normalizeField e) (normalizeField p) s))
          (findAllLinkedContacts
            (resolvePrimaryIds (findByEmailOrPhone (normalizeField e) (normalizeField p) s)) s)
          s).1
        (mergePrimaryContacts now
          (resolvePrimaryIds (findByEmailOrPhone (normalizeField e) (normalizeField p) s))
          (findAllLinkedContacts
            (resolvePrimaryIds (findByEmailOrPhone (normalizeField e) (normalizeField p) s)) s)
          s).2 with hcase | ⟨pim, hfind, hcase⟩
    · rw [hcase]
      exact ⟨_, buildResponse_of_unique_primary hwM hw_prim huniqM, rfl⟩
    · rw [hcase]
      refine ⟨_, buildResponse_of_unique_primary (List.mem_append.2 (Or.inl hwM)) hw_prim ?_, rfl⟩
      intro q hq2 hqp
      rcases List.mem_append.1 hq2 with hq2 | hq2
      · exact huniqM q hq2 hqp
      · simp only [List.mem_singleton] at hq2
        rw [hq2, createContact_fst_linkPrecedence] at hqp
        cases hqp

/-! ### Claims C1 and C2 -/

/-- C1 (amended): when a request bridges two or more primaries, the
primaries are ordered by `createdAt` ascending with ties kept in the
order the storage layer returned them (not re-broken by id); the first
is the winner, every other primary is demoted to SECONDARY with
`linkedId` set to the winner and `updatedAt` bumped, and the response
names the winner. -/
theorem merge_oldest_primary_wins (now : Nat) (e p : Option String) (s : Store)
    (hwf : WellFormed s)
    (hmatch : findByEmailOrPhone (normalizeField e) (normalizeField p) s ≠ [])
    (w l0 : Contact) (rest : List Contact)
    (hsort : reqPrimariesSorted (normalizeField e) (normalizeField p) s = w :: l0 :: rest) :
    (∀ q ∈ w :: l0 :: rest, w.createdAt ≤ q.createdAt) ∧
    (∀ l ∈ l0 :: rest, ∃ l2 ∈ ((identify now e p s).2).contacts,
      l2.id = l.id ∧ l2.linkPrecedence = LinkPrecedence.secondary ∧
        l2.linkedId = some w.id ∧ l2.updatedAt = now) ∧
    (∃ r, (identify now e p s).1 = Except.ok r ∧ r.primaryContatctId = w.id) := by
  obtain ⟨hmem, hresp⟩ := identify_merge_spine now e p s hwf hmatch w l0 rest hsort
  have hsort2 := hsort
  unfold reqPrimariesSorted reqPrimaryIds at hsort2
  obtain ⟨hq, -, -⟩ := merge_context now _ s hwf w l0 rest hsort2
  refine ⟨?_, ?_, hresp⟩
  · have hs : List.Sorted leCreated
        (reqPrimariesSorted (normalizeField e) (normalizeField p) s) :=
      List.sorted_insertionSort leCreated _
    rw [hsort] at hs
    intro q hq2
    rcases List.mem_cons.1 hq2 with rfl | hq2
    · exact Nat.le_refl _
    · exact List.rel_of_sorted_cons hs q hq2
  · intro l hl
    have hl_s := (hq l (List.mem_cons_of_mem w hl)).1
    have hlid : l.id ∈ (l0 :: rest).map (fun l2 => l2.id) := List.mem_map.2 ⟨l, hl, rfl⟩
    refine ⟨_, hmem l hl_s, ?_⟩
    rw [mergedContact_of_loser _ _ _ _ hlid]
    exact ⟨rfl, rfl, rfl, rfl⟩

/-- Closed instance of `merge_oldest_primary_wins` on the spec's seed:
contact 11 (older) wins, contact 27 is demoted under it. -/
theorem merge_oldest_primary_wins_witness :
    WellFormed storeSpecPair ∧
    (∀ l ∈ [mkContact 27 (some ("biff")) (some ("717171")) none .primary 21],
      ∃ l2 ∈ ((identify 30 (some ("george")) (some ("717171")) storeSpecPair).2).contacts,
        l2.id = l.id ∧ l2.linkPrecedence = LinkPrecedence.secondary ∧
          l2.linkedId = some 11 ∧ l2.updatedAt = 30) ∧
    (∃ r, (identify 30 (some ("george")) (some ("717171")) storeSpecPair).1 =
      Except.ok r ∧ r.primaryContatctId = 11) :=
  have h := merge_oldest_primary_wins 30 (some ("george")) (some ("717171")) storeSpecPair
    (by decide) (by decide)
    (mkContact 11 (some ("george")) (some ("919191")) none .primary 11)
    (mkContact 27 (some ("biff")) (some ("717171")) none .primary 21) [] (by decide)
  ⟨by decide, h.2.1, h.2.2⟩

/-- C1 counterexample: a store satisfying every data-model invariant in
which the two bridged primaries share a `createdAt` and the storage layer
returns the row with the larger id first.  The claimed id-ascending
tie-break would make contact 1 the winner; the code keeps contact 2
primary, demotes contact 1 under it, and answers with 2. -/
theorem merge_tiebreak_counterexample :
    WellFormed storeTiePrimaries ∧
    (∀ c ∈ storeTiePrimaries.contacts,
      c.linkPrecedence = LinkPrecedence.primary ∧ c.createdAt = 5) ∧
    (reqPrimaryIds (some ("a")) (some ("1")) storeTiePrimaries).length = 2 ∧
    (identify 9 (some ("a")) (some ("1")) storeTiePrimaries).1 =
      Except.ok
        { primaryContatctId := 2, emails := [("b"), ("a")],
          phoneNumbers := [("1")], secondaryContactIds := [1] } ∧
    (2 : Nat) ≠ 1 := by
  refine ⟨by decide, by decide, by decide, by decide, by decide⟩

/-- C2: after a merge, every visible contact that pointed at a losing
primary is re-pointed at the winner, and in the final store no contact's
`linkedId` names a row that is not PRIMARY. -/
theorem merge_repoints_orphans (now : Nat) (e p : Option String) (s : Store)
    (hwf : WellFormed s)
    (hmatch : findByEmailOrPhone (normalizeField e) (normalizeField p) s ≠ [])
    (w l0 : Contact) (rest : List Contact)
    (hsort : reqPrimariesSorted (normalizeField e) (normalizeField p) s = w :: l0 :: rest) :
    (∀ c ∈ s.contacts, alive c = true →
      (∃ l ∈ l0 :: rest, c.linkedId = some l.id) →
      ∃ c2 ∈ ((identify now e p s).2).contacts, c2.id = c.id ∧ c2.linkedId = some w.id) ∧
    (∀ c2 ∈ ((identify now e p s).2).contacts, alive c2 = true →
      ∀ d2 ∈ ((identify now e p s).2).contacts, c2.linkedId = some d2.id →
        d2.linkPrecedence = LinkPrecedence.primary) := by
  obtain ⟨hmem, -⟩ := identify_merge_spine now e p s hwf hmatch w l0 rest hsort
  have hsort2 := hsort
  unfold reqPrimariesSorted reqPrimaryIds at hsort2
  obtain ⟨hq, -, -⟩ := merge_context now _ s hwf w l0 rest hsort2
  constructor
  · rintro c hc hal ⟨l, hl, hclid⟩
    have hlid_mem : l.id ∈ (l0 :: rest).map (fun l2 => l2.id) :=
      List.mem_map.2 ⟨l, hl, rfl⟩
    by_cases hcid : c.id ∈ (l0 :: rest).map (fun l2 => l2.id)
    · exfalso
      obtain ⟨l2, hl2, hl2id⟩ := List.mem_map.1 hcid
      have hceq : c = l2 := List.inj_on_of_nodup_map hwf.1 hc
        (hq l2 (List.mem_cons_of_mem w hl2)).1 hl2id.symm
      have := (hq l2 (List.mem_cons_of_mem w hl2)).2.2.2.1
      rw [hceq, this] at hclid
      cases hclid
    · refine ⟨_, hmem c hc, mergedContact_id .., ?_⟩
      rw [mergedContact_of_orphan _ _ _ _ hcid hal l.id hlid_mem hclid]
      rfl
  · intro c2 hc2 hal2 d2 hd2 hlink
    have hwf2 : WellFormed (identify now e p s).2 := wellFormed_identify now e p s hwf
    obtain ⟨hnodup2, -, -, hInv2b, hInv3b⟩ := hwf2
    cases hp : c2.linkPrecedence with
    | primary =>
      have hnone := hInv2b c2 hc2 hal2 hp
      rw [hnone] at hlink
      cases hlink
    | secondary =>
      obtain ⟨q, hqs, hqal, hclid, hqprim⟩ := hInv3b c2 hc2 hal2 hp
      rw [hclid] at hlink
      have hdq : q.id = d2.id := by injection hlink
      have : q = d2 := List.inj_on_of_nodup_map hnodup2 hqs hd2 hdq
      rw [← this]
      exact hqprim

/-- Closed instance of `merge_repoints_orphans`: after bridging the two
seeded clusters, the loser's secondary (contact 11) points at the
winner 1, and no `linkedId` in the final store names a non-primary. -/
theorem merge_repoints_orphans_witness :
    (∀ c ∈ storeOrphanMerge.contacts, alive c = true →
      (∃ l ∈ [mkContact 10 (some ("b")) (some ("222")) none .primary 2],
        c.linkedId = some l.id) →
      ∃ c2 ∈ ((identify 9 (some ("a")) (some ("222")) storeOrphanMerge).2).contacts,
        c2.id = c.id ∧ c2.linkedId = some 1) ∧
    (∀ c2 ∈ ((identify 9 (some ("a")) (some ("222")) storeOrphanMerge).2).contacts,
      alive c2 = true →
      ∀ d2 ∈ ((identify 9 (some ("a")) (some ("222")) storeOrphanMerge).2).contacts,
        c2.linkedId = some d2.id → d2.linkPrecedence = LinkPrecedence.primary) :=
  merge_repoints_orphans 9 (some ("a")) (some ("222")) storeOrphanMerge
    (by decide) (by decide)
    (mkContact 1 (some ("a")) (some ("111")) none .primary 0)
    (mkContact 10 (some ("b")) (some ("222")) none .primary 2) [] (by decide)

/-! ### Stable-sort congruence toolkit -/

theorem pairwise_filter_of_forall {r : Contact → Contact → Prop} (p : Contact → Bool)
    (hp : ∀ a b, p a = true → p b = true → r a b) (l : List Contact) :
    (l.filter p).Pairwise r := by
  induction l with
  | nil => exact List.Pairwise.nil
  | cons a t ih =>
    rw [List.filter_cons]
    split
    · rename_i hpa
      exact List.Pairwise.cons (fun b hb => hp a b hpa (List.of_mem_filter hb)) ih
    · exact ih

theorem filter_insertionSort_eq {r : Contact → Contact → Prop} [DecidableRel r]
    (p : Contact → Bool) (hp : ∀ a b, p a = true → p b = true → r a b) (l : List Contact) :
    (List.insertionSort r l).filter p = l.filter p := by
  have hpair := pairwise_filter_of_forall p hp l
  have hsub : List.Sublist (l.filter p) (List.insertionSort r l) :=
    List.sublist_insertionSort hpair (List.filter_sublist l)
  have hsub2 : List.Sublist (l.filter p) ((List.insertionSort r l).filter p) := by
    have h2 := hsub.filter p
    have h3 : (l.filter p).filter p = l.filter p := by
      rw [List.filter_filter]
      apply List.filter_congr
      intro a ha
      simp
    rwa [h3] at h2
  have hlen : ((List.insertionSort r l).filter p).length = (l.filter p).length :=
    ((List.perm_insertionSort r l).filter p).length_eq
  exact (hsub2.eq_of_length hlen.symm).symm

theorem sorted_eq_of_tie_filters {r : Contact → Contact → Prop} [DecidableRel r]
    [IsTotal Contact r] :
    ∀ {l₁ l₂ : List Contact}, l₁.Sorted r → l₂.Sorted r → l₁.Perm l₂ →
      (∀ x : Contact, l₁.filter (fun y => decide (r x y) && decide (r y x)) =
        l₂.filter (fun y => decide (r x y) && decide (r y x))) →
      l₁ = l₂ := by
  intro l₁
  induction l₁ with
  | nil =>
    intro l₂ _ _ hperm _
    exact hperm.nil_eq
  | cons a t₁ ih =>
    intro l₂ hs₁ hs₂ hperm hties
    cases l₂ with
    | nil => exact absurd hperm.eq_nil (List.cons_ne_nil a t₁)
    | cons b t₂ =>
      have hra : r a a := by
        rcases IsTotal.total (r := r) a a with h | h <;> exact h
      have hab : r a b ∧ r b a := by
        have hbmem : b ∈ a :: t₁ := hperm.mem_iff.2 (List.mem_cons_self ..)
        have hamem : a ∈ b :: t₂ := hperm.mem_iff.1 (List.mem_cons_self ..)
        rcases List.mem_cons.1 hbmem with heq | hb
        · rw [heq]
          exact ⟨hra, hra⟩
        · rcases List.mem_cons.1 hamem with heq | ha
          · rw [← heq]
            exact ⟨hra, hra⟩
          · exact ⟨List.rel_of_sorted_cons hs₁ b hb, List.rel_of_sorted_cons hs₂ a ha⟩
      have hheads : a = b := by
        have h1 := hties a
        rw [List.filter_cons, List.filter_cons,
          if_pos (by simp [hra]), if_pos (by simp [hab.1, hab.2])] at h1
        exact List.head_eq_of_cons_eq h1
      subst hheads
      have htail : t₁ = t₂ := by
        apply ih hs₁.of_cons hs₂.of_cons hperm.cons_inv
        intro x
        have h1 := hties x
        rw [List.filter_cons, List.filter_cons] at h1
        by_cases hx : (decide (r x a) && decide (r a x)) = true
        · rw [if_pos hx, if_pos hx] at h1
          exact List.tail_eq_of_cons_eq h1
        · rw [if_neg hx, if_neg hx] at h1
          exact h1
      rw [htail]

theorem insertionSort_congr {r : Contact → Contact → Prop} [DecidableRel r]
    [IsTotal Contact r] [IsTrans Contact r]
    {l₁ l₂ : List Contact} (hperm : l₁.Perm l₂)
    (hties : ∀ x : Contact, l₁.filter (fun y => decide (r x y) && decide (r y x)) =
      l₂.filter (fun y => decide (r x y) && decide (r y x))) :
    List.insertionSort r l₁ = List.insertionSort r l₂ := by
  have hp : ∀ x : Contact, ∀ a b : Contact,
      (decide (r x a) && decide (r a x)) = true →
      (decide (r x b) && decide (r b x)) = true → r a b := by
    intro x a b hxa hxb
    rw [Bool.and_eq_true, decide_eq_true_iff, decide_eq_true_iff] at hxa hxb
    exact Trans.trans hxa.2 hxb.1
  apply sorted_eq_of_tie_filters (List.sorted_insertionSort r l₁)
    (List.sorted_insertionSort r l₂)
    ((List.perm_insertionSort r l₁).trans (hperm.trans (List.perm_insertionSort r l₂).symm))
  intro x
  rw [filter_insertionSort_eq _ (hp x) l₁, filter_insertionSort_eq _ (hp x) l₂]
  exact hties x

/-! ### Responder characterisation for a unique-primary cluster -/

theorem sortResp_head_unique_primary {cs : List Contact} {p : Contact}
    (hp : p ∈ cs) (hprim : p.linkPrecedence = LinkPrecedence.primary)
    (huniq : ∀ q ∈ cs, q.linkPrecedence = LinkPrecedence.primary → q = p) :
    ∃ tail, List.insertionSort respLe cs = p :: tail := by
  cases hs : List.insertionSort respLe cs with
  | nil =>
    have := (List.mem_insertionSort respLe).2 hp
    rw [hs] at this
    cases this
  | cons q tail =>
    suffices hqp : q = p by
      refine ⟨tail, ?_⟩
      rw [hqp]
    have hpmem : p ∈ q :: tail := by
      rw [← hs]
      exact (List.mem_insertionSort respLe).2 hp
    rcases List.mem_cons.1 hpmem with heq | hpt
    · exact heq.symm
    · have hsorted := List.sorted_insertionSort respLe cs
      rw [hs] at hsorted
      have hqle : respLe q p := List.rel_of_sorted_cons hsorted p hpt
      have hqprim : q.linkPrecedence = LinkPrecedence.primary := by
        cases hq : q.linkPrecedence with
        | primary => rfl
        | secondary =>
          exfalso
          unfold respLe rank at hqle
          rw [hq, hprim] at hqle
          rcases hqle with h | ⟨h, -⟩
          · exact absurd h (by decide)
          · exact absurd h (by decide)
      apply huniq q _ hqprim
      rw [← List.mem_insertionSort respLe, hs]
      exact List.mem_cons_self ..

theorem foldl_append_head {α : Type} (step : List α → Contact → List α)
    (hstep : ∀ acc c, step acc c = acc ∨ ∃ x, step acc c = acc ++ [x]) :
    ∀ (l : List Contact) (acc : List α) (v : α), acc.head? = some v →
      (l.foldl step acc).head? = some v := by
  intro l
  induction l with
  | nil => intro acc v h; exact h
  | cons c t ih =>
    intro acc v h
    rw [List.foldl_cons]
    apply ih
    rcases hstep acc c with he | ⟨x, he⟩
    · rw [he]
      exact h
    · rw [he]
      cases acc with
      | nil => cases h
      | cons a t2 => simpa using h

theorem collectEmails_step_cases (acc : List String) (c : Contact) :
    (match c.email with
      | some e => if !(e == "") && !(acc.contains e) then acc ++ [e] else acc
      | none => acc) = acc ∨
    ∃ x, (match c.email with
      | some e => if !(e == "") && !(acc.contains e) then acc ++ [e] else acc
      | none => acc) = acc ++ [x] := by
  cases c.email with
  | none => exact Or.inl rfl
  | some e =>
    dsimp only
    split
    · exact Or.inr ⟨e, rfl⟩
    · exact Or.inl rfl

theorem collectPhones_step_cases (acc : List String) (c : Contact) :
    (match c.phoneNumber with
      | some e => if !(e == "") && !(acc.contains e) then acc ++ [e] else acc
      | none => acc) = acc ∨
    ∃ x, (match c.phoneNumber with
      | some e => if !(e == "") && !(acc.contains e) then acc ++ [e] else acc
      | none => acc) = acc ++ [x] := by
  cases c.phoneNumber with
  | none => exact Or.inl rfl
  | some e =>
    dsimp only
    split
    · exact Or.inr ⟨e, rfl⟩
    · exact Or.inl rfl

theorem collectEmails_head {p : Contact} (tail : List Contact) {v : String}
    (he : p.email = some v) (hv : v ≠ "") :
    (collectEmails (p :: tail)).head? = some v := by
  unfold collectEmails
  rw [List.foldl_cons]
  have h1 : (match p.email with
      | some e => if !(e == "") && !(([] : List String).contains e) then [] ++ [e] else []
      | none => ([] : List String)) = [v] := by
    rw [he]
    dsimp only
    rw [if_pos (by simp [hv])]
    rfl
  rw [h1]
  exact foldl_append_head _ collectEmails_step_cases tail [v] v rfl

theorem collectPhones_head {p : Contact} (tail : List Contact) {v : String}
    (he : p.phoneNumber = some v) (hv : v ≠ "") :
    (collectPhones (p :: tail)).head? = some v := by
  unfold collectPhones
  rw [List.foldl_cons]
  have h1 : (match p.phoneNumber with
      | some e => if !(e == "") && !(([] : List String).contains e) then [] ++ [e] else []
      | none => ([] : List String)) = [v] := by
    rw [he]
    dsimp only
    rw [if_pos (by simp [hv])]
    rfl
  rw [h1]
  exact foldl_append_head _ collectPhones_step_cases tail [v] v rfl

theorem collectSecondaryIds_eq (l : List Contact) :
    collectSecondaryIds l =
      (l.filter (fun c => c.linkPrecedence == LinkPrecedence.secondary)).map
        (fun c => c.id) := by
  unfold collectSecondaryIds
  suffices haux : ∀ (l : List Contact) (acc : List Nat),
      l.foldl (fun acc c =>
        if c.linkPrecedence = LinkPrecedence.secondary then acc ++ [c.id] else acc) acc =
      acc ++ (l.filter (fun c => c.linkPrecedence == LinkPrecedence.secondary)).map
        (fun c => c.id) by
    rw [haux l []]
    rfl
  intro l2
  induction l2 with
  | nil => intro acc; simp
  | cons c t ih =>
    intro acc
    rw [List.foldl_cons, List.filter_cons]
    by_cases hc : c.linkPrecedence = LinkPrecedence.secondary
    · rw [if_pos hc, ih, if_pos (by simpa using hc)]
      simp
    · rw [if_neg hc, ih, if_neg (by simpa using hc)]

theorem collectEmails_spec (l : List Contact) :
    (collectEmails l).Nodup ∧
      ∀ v, v ∈ collectEmails l ↔ (v ≠ "" ∧ ∃ c ∈ l, c.email = some v) := by
  unfold collectEmails
  suffices haux : ∀ (l : List Contact) (acc : List String), acc.Nodup →
      (l.foldl (fun acc c =>
        match c.email with
        | some e => if !(e == "") && !(acc.contains e) then acc ++ [e] else acc
        | none => acc) acc).Nodup ∧
      ∀ v, v ∈ l.foldl (fun acc c =>
        match c.email with
        | some e => if !(e == "") && !(acc.contains e) then acc ++ [e] else acc
        | none => acc) acc ↔
        (v ∈ acc ∨ (v ≠ "" ∧ ∃ c ∈ l, c.email = some v)) by
    obtain ⟨h1, h2⟩ := haux l [] (by simp)
    refine ⟨h1, fun v => ?_⟩
    rw [h2 v]
    simp
  intro l2
  induction l2 with
  | nil =>
    intro acc hacc
    refine ⟨hacc, fun v => ?_⟩
    simp
  | cons c t ih =>
    intro acc hacc
    rw [List.foldl_cons]
    cases hce : c.email with
    | none =>
      obtain ⟨h1, h2⟩ := ih acc hacc
      refine ⟨h1, fun v => ?_⟩
      rw [h2 v]
      constructor
      · rintro (hv | ⟨hv, d, hd, hdv⟩)
        · exact Or.inl hv
        · exact Or.inr ⟨hv, d, List.mem_cons_of_mem c hd, hdv⟩
      · rintro (hv | ⟨hv, d, hd, hdv⟩)
        · exact Or.inl hv
        · rcases List.mem_cons.1 hd with rfl | hd
          · rw [hce] at hdv
            cases hdv
          · exact Or.inr ⟨hv, d, hd, hdv⟩
    | some e =>
      dsimp only
      by_cases hcond : (!(e == "") && !(acc.contains e)) = true
      · rw [if_pos hcond]
        rw [Bool.and_eq_true] at hcond
        have he : e ≠ "" := by simpa using hcond.1
        have hem : e ∉ acc := by simpa using hcond.2
        obtain ⟨h1, h2⟩ := ih (acc ++ [e]) (by
          rw [List.nodup_append]
          exact ⟨hacc, by simp, by simpa using fun h => hem h⟩)
        refine ⟨h1, fun v => ?_⟩
        rw [h2 v]
        constructor
        · rintro (hv | ⟨hv, d, hd, hdv⟩)
          · rcases List.mem_append.1 hv with hv | hv
            · exact Or.inl hv
            · simp only [List.mem_singleton] at hv
              subst hv
              exact Or.inr ⟨he, c, List.mem_cons_self .., hce⟩
          · exact Or.inr ⟨hv, d, List.mem_cons_of_mem c hd, hdv⟩
        · rintro (hv | ⟨hv, d, hd, hdv⟩)
          · exact Or.inl (List.mem_append.2 (Or.inl hv))
          · rcases List.mem_cons.1 hd with rfl | hd
            · rw [hce] at hdv
              injection hdv with hdv
              subst hdv
              exact Or.inl (List.mem_append.2 (Or.inr (by simp)))
            · exact Or.inr ⟨hv, d, hd, hdv⟩
      · rw [if_neg hcond]
        rw [Bool.and_eq_true, Decidable.not_and_iff_or_not] at hcond
        obtain ⟨h1, h2⟩ := ih acc hacc
        refine ⟨h1, fun v => ?_⟩
        rw [h2 v]
        constructor
        · rintro (hv | ⟨hv, d, hd, hdv⟩)
          · exact Or.inl hv
          · exact Or.inr ⟨hv, d, List.mem_cons_of_mem c hd, hdv⟩
        · rintro (hv | ⟨hv, d, hd, hdv⟩)
          · exact Or.inl hv
          · rcases List.mem_cons.1 hd with rfl | hd
            · rw [hce] at hdv
              injection hdv with hdv
              subst hdv
              rcases hcond with hc | hc
              · exact absurd (by simpa using hc) hv
              · exact Or.inl (by simpa using hc)
            · exact Or.inr ⟨hv, d, hd, hdv⟩

theorem collectPhones_spec (l : List Contact) :
    (collectPhones l).Nodup ∧
      ∀ v, v ∈ collectPhones l ↔ (v ≠ "" ∧ ∃ c ∈ l, c.phoneNumber = some v) := by
  unfold collectPhones
  suffices haux : ∀ (l : List Contact) (acc : List String), acc.Nodup →
      (l.foldl (fun acc c =>
        match c.phoneNumber with
        | some e => if !(e == "") && !(acc.contains e) then acc ++ [e] else acc
        | none => acc) acc).Nodup ∧
      ∀ v, v ∈ l.foldl (fun acc c =>
        match c.phoneNumber with
        | some e => if !(e == "") && !(acc.contains e) then acc ++ [e] else acc
        | none => acc) acc ↔
        (v ∈ acc ∨ (v ≠ "" ∧ ∃ c ∈ l, c.phoneNumber = some v)) by
    obtain ⟨h1, h2⟩ := haux l [] (by simp)
    refine ⟨h1, fun v => ?_⟩
    rw [h2 v]
    simp
  intro l2
  induction l2 with
  | nil =>
    intro acc hacc
    refine ⟨hacc, fun v => ?_⟩
    simp
  | cons c t ih =>
    intro acc hacc
    rw [List.foldl_cons]
    cases hce : c.phoneNumber with
    | none =>
      obtain ⟨h1, h2⟩ := ih acc hacc
      refine ⟨h1, fun v => ?_⟩
      rw [h2 v]
      constructor
      · rintro (hv | ⟨hv, d, hd, hdv⟩)
        · exact Or.inl hv
        · exact Or.inr ⟨hv, d, List.mem_cons_of_mem c hd, hdv⟩
      · rintro (hv | ⟨hv, d, hd, hdv⟩)
        · exact Or.inl hv
        · rcases List.mem_cons.1 hd with rfl | hd
          · rw [hce] at hdv
            cases hdv
          · exact Or.inr ⟨hv, d, hd, hdv⟩
    | some e =>
      dsimp only
      by_cases hcond : (!(e == "") && !(acc.contains e)) = true
      · rw [if_pos hcond]
        rw [Bool.and_eq_true] at hcond
        have he : e ≠ "" := by simpa using hcond.1
        have hem : e ∉ acc := by simpa using hcond.2
        obtain ⟨h1, h2⟩ := ih (acc ++ [e]) (by
          rw [List.nodup_append]
          exact ⟨hacc, by simp, by simpa using fun h => hem h⟩)
        refine ⟨h1, fun v => ?_⟩
        rw [h2 v]
        constructor
        · rintro (hv | ⟨hv, d, hd, hdv⟩)
          · rcases List.mem_append.1 hv with hv | hv
            · exact Or.inl hv
            · simp only [List.mem_singleton] at hv
              subst hv
              exact Or.inr ⟨he, c, List.mem_cons_self .., hce⟩
          · exact Or.inr ⟨hv, d, List.mem_cons_of_mem c hd, hdv⟩
        · rintro (hv | ⟨hv, d, hd, hdv⟩)
          · exact Or.inl (List.mem_append.2 (Or.inl hv))
          · rcases List.mem_cons.1 hd with rfl | hd
            · rw [hce] at hdv
              injection hdv with hdv
              subst hdv
              exact Or.inl (List.mem_append.2 (Or.inr (by simp)))
            · exact Or.inr ⟨hv, d, hd, hdv⟩
      · rw [if_neg hcond]
        rw [Bool.and_eq_true, Decidable.not_and_iff_or_not] at hcond
        obtain ⟨h1, h2⟩ := ih acc hacc
        refine ⟨h1, fun v => ?_⟩
        rw [h2 v]
        constructor
        · rintro (hv | ⟨hv, d, hd, hdv⟩)
          · exact Or.inl hv
          · exact Or.inr ⟨hv, d, List.mem_cons_of_mem c hd, hdv⟩
        · rintro (hv | ⟨hv, d, hd, hdv⟩)
          · exact Or.inl hv
          · rcases List.mem_cons.1 hd with rfl | hd
            · rw [hce] at hdv
              injection hdv with hdv
              subst hdv
              rcases hcond with hc | hc
              · exact absurd (by simpa using hc) hv
              · exact Or.inl (by simpa using hc)
            · exact Or.inr ⟨hv, d, hd, hdv⟩

theorem rank_of_secondary {c : Contact} (h : c.linkPrecedence = LinkPrecedence.secondary) :
    rank c = 1 := by
  unfold rank
  rw [h]

theorem respLe_of_secondaries {a b : Contact} (ha : a.linkPrecedence = LinkPrecedence.secondary)
    (hb : b.linkPrecedence = LinkPrecedence.secondary) (hab : respLe a b) : leCreated a b := by
  unfold respLe at hab
  rw [rank_of_secondary ha, rank_of_secondary hb] at hab
  rcases hab with h | ⟨-, h⟩
  · exact absurd h (by decide)
  · exact h

theorem sortResp_filter_secondary (cs : List Contact) :
    (List.insertionSort respLe cs).filter
        (fun c => c.linkPrecedence == LinkPrecedence.secondary) =
      List.insertionSort leCreated
        (cs.filter (fun c => c.linkPrecedence == LinkPrecedence.secondary)) := by
  have hsec : ∀ {a : Contact},
      a ∈ (List.insertionSort respLe cs).filter
        (fun c => c.linkPrecedence == LinkPrecedence.secondary) →
      a.linkPrecedence = LinkPrecedence.secondary := by
    intro a ha
    have := List.of_mem_filter ha
    simpa using this
  have h1 : List.Sorted leCreated
      ((List.insertionSort respLe cs).filter
        (fun c => c.linkPrecedence == LinkPrecedence.secondary)) := by
    have hs2 := (List.sorted_insertionSort respLe cs).filter
      (fun c => c.linkPrecedence == LinkPrecedence.secondary)
    exact List.Pairwise.imp_of_mem
      (fun ha hb hab => respLe_of_secondaries (hsec ha) (hsec hb) hab) hs2
  have h2 : List.Sorted leCreated
      (List.insertionSort leCreated
        (cs.filter (fun c => c.linkPrecedence == LinkPrecedence.secondary))) :=
    List.sorted_insertionSort leCreated _
  have h3 : ((List.insertionSort respLe cs).filter
      (fun c => c.linkPrecedence == LinkPrecedence.secondary)).Perm
      (List.insertionSort leCreated
        (cs.filter (fun c => c.linkPrecedence == LinkPrecedence.secondary))) :=
    (((List.perm_insertionSort respLe cs).filter _).trans
      (List.perm_insertionSort leCreated _).symm)
  apply sorted_eq_of_tie_filters h1 h2 h3
  intro x
  have hpL : ∀ a b : Contact,
      ((fun y => decide (leCreated x y) && decide (leCreated y x)) a &&
        (fun c => c.linkPrecedence == LinkPrecedence.secondary) a) = true →
      ((fun y => decide (leCreated x y) && decide (leCreated y x)) b &&
        (fun c => c.linkPrecedence == LinkPrecedence.secondary) b) = true →
      respLe a b := by
    intro a b ha hb
    simp only [Bool.and_eq_true, decide_eq_true_iff, beq_iff_eq] at ha hb
    unfold respLe
    rw [rank_of_secondary ha.2, rank_of_secondary hb.2]
    exact Or.inr ⟨rfl, Nat.le_trans ha.1.2 hb.1.1⟩
  have hpR : ∀ a b : Contact,
      (decide (leCreated x a) && decide (leCreated a x)) = true →
      (decide (leCreated x b) && decide (leCreated b x)) = true →
      leCreated a b := by
    intro a b ha hb
    simp only [Bool.and_eq_true, decide_eq_true_iff] at ha hb
    exact Nat.le_trans ha.2 hb.1
  rw [List.filter_filter, filter_insertionSort_eq _ hpL cs,
    filter_insertionSort_eq _ hpR
      (cs.filter (fun c => c.linkPrecedence == LinkPrecedence.secondary)),
    List.filter_filter]

/-! ### Claim C5 -/

/-- C5 (amended): for a final cluster with exactly one PRIMARY, the
response orders contacts primary first, then secondaries by `createdAt`
ascending with ties kept in the order the storage layer returned them
(not re-broken by id); `emails`/`phoneNumbers` are the distinct non-null
(and non-empty) values with the primary's own values first whenever
present, and `secondaryContactIds` lists the secondaries' ids in that
sorted order. -/
theorem responder_view_of_unique_primary (cs : List Contact) (p : Contact)
    (hp : p ∈ cs) (hprim : p.linkPrecedence = LinkPrecedence.primary)
    (huniq : ∀ q ∈ cs, q.linkPrecedence = LinkPrecedence.primary → q = p) :
    ∃ r, buildResponse cs = Except.ok r ∧
      r.primaryContatctId = p.id ∧
      r.secondaryContactIds =
        (List.insertionSort leCreated
          (cs.filter (fun c => c.linkPrecedence == LinkPrecedence.secondary))).map
          (fun c => c.id) ∧
      (∀ v, p.email = some v → v ≠ "" → r.emails.head? = some v) ∧
      (∀ v, p.phoneNumber = some v → v ≠ "" → r.phoneNumbers.head? = some v) ∧
      r.emails.Nodup ∧
      (∀ v, v ∈ r.emails ↔ (v ≠ "" ∧ ∃ c ∈ cs, c.email = some v)) ∧
      r.phoneNumbers.Nodup ∧
      (∀ v, v ∈ r.phoneNumbers ↔ (v ≠ "" ∧ ∃ c ∈ cs, c.phoneNumber = some v)) := by
  refine ⟨_, buildResponse_of_unique_primary hp hprim huniq, rfl, ?_, ?_, ?_, ?_, ?_, ?_, ?_⟩
  · show collectSecondaryIds (List.insertionSort respLe cs) = _
    rw [collectSecondaryIds_eq, sortResp_filter_secondary]
  · intro v he hv
    show (collectEmails (List.insertionSort respLe cs)).head? = some v
    obtain ⟨tail, hs⟩ := sortResp_head_unique_primary hp hprim huniq
    rw [hs]
    exact collectEmails_head tail he hv
  · intro v he hv
    show (collectPhones (List.insertionSort respLe cs)).head? = some v
    obtain ⟨tail, hs⟩ := sortResp_head_unique_primary hp hprim huniq
    rw [hs]
    exact collectPhones_head tail he hv
  · exact (collectEmails_spec _).1
  · intro v
    show v ∈ collectEmails (List.insertionSort respLe cs) ↔ _
    rw [(collectEmails_spec _).2 v]
    simp only [List.mem_insertionSort]
  · exact (collectPhones_spec _).1
  · intro v
    show v ∈ collectPhones (List.insertionSort respLe cs) ↔ _
    rw [(collectPhones_spec _).2 v]
    simp only [List.mem_insertionSort]

/-- Closed instance of `responder_view_of_unique_primary` at the
tie-secondaries cluster. -/
theorem responder_view_of_unique_primary_witness :
    ∃ r, buildResponse storeTieSecondaries.contacts = Except.ok r ∧
      r.primaryContatctId = 1 ∧
      r.secondaryContactIds =
        (List.insertionSort leCreated
          (storeTieSecondaries.contacts.filter
            (fun c => c.linkPrecedence == LinkPrecedence.secondary))).map
          (fun c => c.id) ∧
      (∀ v, (mkContact 1 (some ("a")) (some ("1")) none .primary 0).email = some v →
        v ≠ "" → r.emails.head? = some v) ∧
      (∀ v, (mkContact 1 (some ("a")) (some ("1")) none .primary 0).phoneNumber = some v →
        v ≠ "" → r.phoneNumbers.head? = some v) ∧
      r.emails.Nodup ∧
      (∀ v, v ∈ r.emails ↔ (v ≠ "" ∧ ∃ c ∈ storeTieSecondaries.contacts, c.email = some v)) ∧
      r.phoneNumbers.Nodup ∧
      (∀ v, v ∈ r.phoneNumbers ↔
        (v ≠ "" ∧ ∃ c ∈ storeTieSecondaries.contacts, c.phoneNumber = some v)) := by
  have h := responder_view_of_unique_primary storeTieSecondaries.contacts
    (mkContact 1 (some ("a")) (some ("1")) none .primary 0)
    (by decide) (by decide) (by decide)
  simpa using h

/-- C5 counterexample: an invariant-satisfying store whose two
secondaries share a `createdAt` and are returned by storage with the
larger id first.  The claimed id-ascending tie-break predicts
`secondaryContactIds = [2, 3]`; the code answers `[3, 2]`. -/
theorem responder_tiebreak_counterexample :
    WellFormed storeTieSecondaries ∧
    (∀ c ∈ storeTieSecondaries.contacts,
      c.linkPrecedence = LinkPrecedence.secondary → c.createdAt = 7) ∧
    (identify 9 (some ("a")) (some ("1")) storeTieSecondaries).1 =
      Except.ok
        { primaryContatctId := 1, emails := [("a"), ("c"), ("b")],
          phoneNumbers := [("1")], secondaryContactIds := [3, 2] } ∧
    ([3, 2] : List Nat) ≠ [2, 3] := by
  refine ⟨by decide, by decide, by decide, by decide⟩

/-! ### Resolution characterisation and idempotence plumbing -/

theorem mem_addUnique {acc : List Nat} {m n : Nat} :
    n ∈ addUnique acc m ↔ n ∈ acc ∨ n = m := by
  unfold addUnique
  split
  · rename_i hm
    constructor
    · exact Or.inl
    · rintro (h | rfl)
      · exact h
      · exact hm
  · rw [List.mem_append]
    simp

theorem mem_resolvePrimaryIds {l : List Contact} {n : Nat} :
    n ∈ resolvePrimaryIds l ↔
      ∃ c ∈ l, (c.linkPrecedence = LinkPrecedence.primary ∧ c.id = n) ∨
        (c.linkPrecedence ≠ LinkPrecedence.primary ∧ c.linkedId = some n) := by
  unfold resolvePrimaryIds
  suffices haux : ∀ (l : List Contact) (acc : List Nat),
      n ∈ l.foldl (fun acc c =>
        if c.linkPrecedence = LinkPrecedence.primary then addUnique acc c.id
        else match c.linkedId with
          | some m => addUnique acc m
          | none => acc) acc ↔
      n ∈ acc ∨ ∃ c ∈ l, (c.linkPrecedence = LinkPrecedence.primary ∧ c.id = n) ∨
        (c.linkPrecedence ≠ LinkPrecedence.primary ∧ c.linkedId = some n) by
    rw [haux l []]
    simp
  intro l2
  induction l2 with
  | nil =>
    intro acc
    simp
  | cons c t ih =>
    intro acc
    rw [List.foldl_cons]
    by_cases hc : c.linkPrecedence = LinkPrecedence.primary
    · rw [if_pos hc, ih]
      rw [mem_addUnique]
      constructor
      · rintro ((h | rfl) | ⟨d, hd, hor⟩)
        · exact Or.inl h
        · exact Or.inr ⟨c, List.mem_cons_self .., Or.inl ⟨hc, rfl⟩⟩
        · exact Or.inr ⟨d, List.mem_cons_of_mem c hd, hor⟩
      · rintro (h | ⟨d, hd, hor⟩)
        · exact Or.inl (Or.inl h)
        · rcases List.mem_cons.1 hd with rfl | hd
          · rcases hor with ⟨-, hid⟩ | ⟨hnp, -⟩
            · exact Or.inl (Or.inr hid.symm)
            · exact absurd hc hnp
          · exact Or.inr ⟨d, hd, hor⟩
    · rw [if_neg hc]
      cases hlid : c.linkedId with
      | none =>
        rw [ih]
        constructor
        · rintro (h | ⟨d, hd, hor⟩)
          · exact Or.inl h
          · exact Or.inr ⟨d, List.mem_cons_of_mem c hd, hor⟩
        · rintro (h | ⟨d, hd, hor⟩)
          · exact Or.inl h
          · rcases List.mem_cons.1 hd with rfl | hd
            · rcases hor with ⟨hp, -⟩ | ⟨-, hsome⟩
              · exact absurd hp hc
              · rw [hlid] at hsome
                cases hsome
            · exact Or.inr ⟨d, hd, hor⟩
      | some m =>
        rw [ih, mem_addUnique]
        constructor
        · rintro ((h | rfl) | ⟨d, hd, hor⟩)
          · exact Or.inl h
          · exact Or.inr ⟨c, List.mem_cons_self .., Or.inr ⟨hc, hlid⟩⟩
          · exact Or.inr ⟨d, List.mem_cons_of_mem c hd, hor⟩
        · rintro (h | ⟨d, hd, hor⟩)
          · exact Or.inl (Or.inl h)
          · rcases List.mem_cons.1 hd with rfl | hd
            · rcases hor with ⟨hp, -⟩ | ⟨-, hsome⟩
              · exact absurd hp hc
              · rw [hlid] at hsome
                injection hsome with hsome
                exact Or.inl (Or.inr hsome.symm)
            · exact Or.inr ⟨d, hd, hor⟩

theorem addUnique_idem (acc : List Nat) (n : Nat) :
    addUnique (addUnique acc n) n = addUnique acc n := by
  by_cases h : n ∈ acc <;> simp [addUnique, h]

theorem resolvePrimaryIds_const {l : List Contact} {pid : Nat} (hne : l ≠ [])
    (h : ∀ c ∈ l, (c.linkPrecedence = LinkPrecedence.primary ∧ c.id = pid) ∨
      (c.linkPrecedence = LinkPrecedence.secondary ∧ c.linkedId = some pid)) :
    resolvePrimaryIds l = [pid] := by
  unfold resolvePrimaryIds
  suffices haux : ∀ (l : List Contact) (acc : List Nat),
      (∀ c ∈ l, (c.linkPrecedence = LinkPrecedence.primary ∧ c.id = pid) ∨
        (c.linkPrecedence = LinkPrecedence.secondary ∧ c.linkedId = some pid)) →
      l.foldl (fun acc c =>
        if c.linkPrecedence = LinkPrecedence.primary then addUnique acc c.id
        else match c.linkedId with
          | some m => addUnique acc m
          | none => acc) acc = if l = [] then acc else addUnique acc pid by
    rw [haux l [] h, if_neg hne]
    rfl
  intro l2
  induction l2 with
  | nil => intro acc _; rfl
  | cons c t ih =>
    intro acc hprops
    rw [List.foldl_cons]
    have hstep : (if c.linkPrecedence = LinkPrecedence.primary then addUnique acc c.id
        else match c.linkedId with
          | some m => addUnique acc m
          | none => acc) = addUnique acc pid := by
      rcases hprops c (List.mem_cons_self ..) with ⟨hp, hid⟩ | ⟨hs, hlid⟩
      · rw [if_pos hp, hid]
      · rw [if_neg (by rw [hs]; intro h; cases h), hlid]
    rw [hstep, ih _ (fun d hd => hprops d (List.mem_cons_of_mem c hd)),
      if_neg (List.cons_ne_nil c t)]
    split
    · rfl
    · exact addUnique_idem acc pid

theorem normalizeField_some_ne_empty {v : Option String} {x : String}
    (h : normalizeField v = some x) : x ≠ "" := by
  unfold normalizeField at h
  cases v with
  | none => cases h
  | some w =>
    dsimp only at h
    split at h
    · cases h
    · rename_i hne
      injection h with h
      rw [← h]
      exact hne

theorem insertionSort_eq_nil {r : Contact → Contact → Prop} [DecidableRel r]
    {l : List Contact} (h : List.insertionSort r l = []) : l = [] := by
  have hperm := List.perm_insertionSort r l
  rw [h] at hperm
  exact (hperm.symm.eq_nil)

theorem createSecondaryIfNeeded_now_swap {now1 : Nat} {e p : Option String}
    {cs : List Contact} {st : Store}
    (h : createSecondaryIfNeeded now1 e p cs st = (cs, st)) (now2 : Nat) :
    createSecondaryIfNeeded now2 e p cs st = (cs, st) := by
  unfold createSecondaryIfNeeded at h ⊢
  split at h <;> rename_i hfind
  · rfl
  · dsimp only at h ⊢
    split at h <;> rename_i hexact
    · rw [if_pos hexact]
    · rw [if_neg hexact]
      split at h <;> rename_i hnew
      · exfalso
        have hcon := congrArg (fun q => q.1.length) h
        simp at hcon
      · rw [if_neg hnew]

theorem buildResponse_congr {l₁ l₂ : List Contact}
    (h : List.insertionSort respLe l₁ = List.insertionSort respLe l₂) :
    buildResponse l₁ = buildResponse l₂ := by
  unfold buildResponse
  rw [h]

theorem contains_iff_mem {l : List Nat} {n : Nat} : l.contains n = true ↔ n ∈ l := by
  simp

theorem resolve_contribution_primary {l : List Contact} {c : Contact} (hc : c ∈ l)
    (hp : c.linkPrecedence = LinkPrecedence.primary) : c.id ∈ resolvePrimaryIds l :=
  mem_resolvePrimaryIds.2 ⟨c, hc, Or.inl ⟨hp, rfl⟩⟩

theorem resolve_contribution_secondary {l : List Contact} {c : Contact} {n : Nat}
    (hc : c ∈ l) (hp : c.linkPrecedence ≠ LinkPrecedence.primary)
    (hl : c.linkedId = some n) : n ∈ resolvePrimaryIds l :=
  mem_resolvePrimaryIds.2 ⟨c, hc, Or.inr ⟨hp, hl⟩⟩

theorem resolve_ids_are_primaries {em ph : Option String} {s : Store} (hwf : WellFormed s)
    {pid : Nat} (hpid : pid ∈ resolvePrimaryIds (findByEmailOrPhone em ph s)) :
    ∃ P ∈ s.contacts, alive P = true ∧ P.linkPrecedence = LinkPrecedence.primary ∧
      P.id = pid := by
  obtain ⟨c, hc, hor⟩ := mem_resolvePrimaryIds.1 hpid
  obtain ⟨hcs, hcond⟩ := mem_findByEmailOrPhone.1 hc
  rw [Bool.and_eq_true] at hcond
  rcases hor with ⟨hp, hid⟩ | ⟨hnp, hlid⟩
  · exact ⟨c, hcs, hcond.1, hp, hid⟩
  · have hsec : c.linkPrecedence = LinkPrecedence.secondary := by
      cases hlp : c.linkPrecedence
      · exact absurd hlp hnp
      · rfl
    obtain ⟨q, hqs, hqal, hclid, hqprim⟩ := hwf.2.2.2.2 c hcs hcond.1 hsec
    rw [hclid] at hlid
    injection hlid with hlid
    exact ⟨q, hqs, hqal, hqprim, hlid⟩

theorem resolve_nonempty {em ph : Option String} {s : Store} (hwf : WellFormed s)
    (hmatch : findByEmailOrPhone em ph s ≠ []) :
    resolvePrimaryIds (findByEmailOrPhone em ph s) ≠ [] := by
  obtain ⟨m, hm⟩ := List.exists_mem_of_ne_nil _ hmatch
  obtain ⟨hms, hcond⟩ := mem_findByEmailOrPhone.1 hm
  rw [Bool.and_eq_true] at hcond
  cases hlp : m.linkPrecedence with
  | primary => exact List.ne_nil_of_mem (resolve_contribution_primary hm hlp)
  | secondary =>
    obtain ⟨q, hqs, hqal, hclid, hqprim⟩ := hwf.2.2.2.2 m hms hcond.1 hlp
    exact List.ne_nil_of_mem
      (resolve_contribution_secondary hm (by rw [hlp]; intro h; cases h) hclid)

theorem resolvePrimaryIds_nodup (l : List Contact) : (resolvePrimaryIds l).Nodup := by
  unfold resolvePrimaryIds
  suffices haux : ∀ (l : List Contact) (acc : List Nat), acc.Nodup →
      (l.foldl (fun acc c =>
        if c.linkPrecedence = LinkPrecedence.primary then addUnique acc c.id
        else match c.linkedId with
          | some m => addUnique acc m
          | none => acc) acc).Nodup from haux l [] (by simp)
  intro l2
  induction l2 with
  | nil => intro acc h; exact h
  | cons c t ih =>
    intro acc hacc
    rw [List.foldl_cons]
    have hadd : ∀ m, (addUnique acc m).Nodup := by
      intro m
      unfold addUnique
      split
      · exact hacc
      · rename_i hm
        rw [List.nodup_append]
        exact ⟨hacc, by simp, by simpa using fun h => hm h⟩
    apply ih
    split
    · exact hadd _
    · split
      · exact hadd _
      · exact hacc

theorem mem_primariesSort_intro {primaryIds : List Nat} {s : Store} {q : Contact}
    (hq : q ∈ s.contacts) (hal : alive q = true)
    (hprim : q.linkPrecedence = LinkPrecedence.primary) (hid : q.id ∈ primaryIds) :
    q ∈ List.insertionSort leCreated ((findAllLinkedContacts primaryIds s).filter fun c =>
      primaryIds.contains c.id && c.linkPrecedence == LinkPrecedence.primary) := by
  rw [List.mem_insertionSort, List.mem_filter]
  refine ⟨mem_findAllLinkedContacts.2 ⟨?_, hq, ?_⟩, ?_⟩
  · intro hempty
    rw [List.isEmpty_iff] at hempty
    rw [hempty] at hid
    cases hid
  · rw [Bool.and_eq_true]
    refine ⟨hal, ?_⟩
    unfold linkedToAny
    rw [Bool.or_eq_true]
    exact Or.inl (contains_iff_mem.2 hid)
  · rw [Bool.and_eq_true]
    exact ⟨contains_iff_mem.2 hid, by simp [hprim]⟩

theorem pipelineMerged_spec (now : Nat) (em ph : Option String) (s : Store)
    (hwf : WellFormed s) (hmatch : findByEmailOrPhone em ph s ≠ []) :
    ∃ P : Contact,
      P ∈ ((pipelineMerged now em ph s).2).contacts ∧ alive P = true ∧
      P.linkPrecedence = LinkPrecedence.primary ∧
      (pipelineMerged now em ph s).1 =
        findAllLinkedContacts [P.id] (pipelineMerged now em ph s).2 ∧
      (∀ c ∈ ((pipelineMerged now em ph s).2).contacts, alive c = true →
        ((truthy em && c.email == em) || (truthy ph && c.phoneNumber == ph)) = true →
        (c.id = P.id ∨ c.linkedId = some P.id)) := by
  by_cases hlen : (resolvePrimaryIds (findByEmailOrPhone em ph s)).length > 1
  · -- merge case
    cases hsort : List.insertionSort leCreated
        ((findAllLinkedContacts (resolvePrimaryIds (findByEmailOrPhone em ph s)) s).filter
          fun c => (resolvePrimaryIds (findByEmailOrPhone em ph s)).contains c.id &&
            c.linkPrecedence == LinkPrecedence.primary) with
    | nil =>
      exfalso
      obtain ⟨pid, hpid⟩ := List.exists_mem_of_ne_nil _ (resolve_nonempty hwf hmatch)
      obtain ⟨P, hPs, hPal, hPprim, hPid⟩ := resolve_ids_are_primaries hwf hpid
      have := mem_primariesSort_intro hPs hPal hPprim (hPid ▸ hpid)
      rw [hsort] at this
      cases this
    | cons w tail =>
      cases tail with
      | nil =>
        exfalso
        have hnd := resolvePrimaryIds_nodup (findByEmailOrPhone em ph s)
        rcases hp : resolvePrimaryIds (findByEmailOrPhone em ph s) with - | ⟨a, - | ⟨b, t2⟩⟩
        · rw [hp] at hlen
          exact absurd hlen (by simp)
        · rw [hp] at hlen
          exact absurd hlen (by simp)
        · have hamem : a ∈ resolvePrimaryIds (findByEmailOrPhone em ph s) := by
            rw [hp]
            exact List.mem_cons_self ..
          have hbmem : b ∈ resolvePrimaryIds (findByEmailOrPhone em ph s) := by
            rw [hp]
            exact List.mem_cons_of_mem a (List.mem_cons_self ..)
          have hab : a ≠ b := by
            rw [hp, List.nodup_cons] at hnd
            intro hcon
            exact hnd.1 (hcon ▸ List.mem_cons_self ..)
          obtain ⟨P1, hP1s, hP1al, hP1prim, hP1id⟩ := resolve_ids_are_primaries hwf hamem
          obtain ⟨P2, hP2s, hP2al, hP2prim, hP2id⟩ := resolve_ids_are_primaries hwf hbmem
          have h1 := mem_primariesSort_intro hP1s hP1al hP1prim (hP1id ▸ hamem)
          have h2 := mem_primariesSort_intro hP2s hP2al hP2prim (hP2id ▸ hbmem)
          rw [hsort] at h1 h2
          simp only [List.mem_singleton] at h1 h2
          exact hab (by rw [← hP1id, ← hP2id, h1, h2])
      | cons l0 rest =>
        obtain ⟨hq, hnodupP, hmap⟩ := merge_context now _ s hwf w l0 rest hsort
        obtain ⟨hw_s, hw_alive, hw_prim, hw_lid, hw_in⟩ := hq w (List.mem_cons_self ..)
        have hwid : w.id ∉ (l0 :: rest).map (fun l => l.id) := (List.nodup_cons.1 hnodupP).1
        have hFw : mergedContact now w.id ((l0 :: rest).map (fun l => l.id)) w = w :=
          mergedContact_of_linkedId_none now w.id _ w hwid hw_lid
        have hpm : pipelineMerged now em ph s =
            mergePrimaryContacts now (resolvePrimaryIds (findByEmailOrPhone em ph s))
              (findAllLinkedContacts (resolvePrimaryIds (findByEmailOrPhone em ph s)) s)
              s := by
          unfold pipelineMerged
          dsimp only
          rw [if_pos hlen]
        refine ⟨w, ?_, hw_alive, hw_prim, ?_, ?_⟩
        · rw [hpm, hmap]
          have hmem := List.mem_map_of_mem
            (mergedContact now w.id ((l0 :: rest).map (fun l => l.id))) hw_s
          rwa [hFw] at hmem
        · rw [hpm, mergePrimaryContacts_eq_of_sort _ _ _ _ w l0 rest hsort]
        · intro c hc hal hcond
          rw [hpm, hmap] at hc
          obtain ⟨c0, hc0, rfl⟩ := List.mem_map.1 hc
          rw [mergedContact_alive] at hal
          rw [mergedContact_id]
          have hcond0 : ((truthy em && c0.email == em) ||
              (truthy ph && c0.phoneNumber == ph)) = true := by
            rw [← mergedContact_email now w.id ((l0 :: rest).map (fun l => l.id)) c0,
              ← mergedContact_phone now w.id ((l0 :: rest).map (fun l => l.id)) c0]
            exact hcond
          have hc0m : c0 ∈ findByEmailOrPhone em ph s :=
            mem_findByEmailOrPhone.2 ⟨hc0, by rw [Bool.and_eq_true]; exact ⟨hal, hcond0⟩⟩
          cases hlp : c0.linkPrecedence with
          | primary =>
            have hmemP := mem_primariesSort_intro hc0 hal hlp
              (resolve_contribution_primary hc0m hlp)
            rw [hsort] at hmemP
            rcases List.mem_cons.1 hmemP with rfl | hmemP
            · rw [hFw]
              exact Or.inl rfl
            · have hlid : c0.id ∈ (l0 :: rest).map (fun l => l.id) :=
                List.mem_map.2 ⟨c0, hmemP, rfl⟩
              rw [mergedContact_of_loser _ _ _ _ hlid]
              exact Or.inr rfl
          | secondary =>
            obtain ⟨q, hqs, hqal, hclid, hqprim⟩ := hwf.2.2.2.2 c0 hc0 hal hlp
            have hqid := resolve_contribution_secondary hc0m
              (by rw [hlp]; intro h; cases h) hclid
            have hmemQ := mem_primariesSort_intro hqs hqal hqprim hqid
            rw [hsort] at hmemQ
            have hc0_not_loser : c0.id ∉ (l0 :: rest).map (fun l => l.id) := by
              intro hcon
              obtain ⟨l2, hl2, hl2id⟩ := List.mem_map.1 hcon
              have hceq : c0 = l2 := List.inj_on_of_nodup_map hwf.1 hc0
                (hq l2 (List.mem_cons_of_mem w hl2)).1 hl2id.symm
              have := (hq l2 (List.mem_cons_of_mem w hl2)).2.2.1
              rw [← hceq, hlp] at this
              cases this
            rcases List.mem_cons.1 hmemQ with rfl | hmemQ
            · have hFc : mergedContact now q.id ((l0 :: rest).map (fun l => l.id)) c0 = c0 := by
                apply mergedContact_of_other _ _ _ _ hc0_not_loser
                rintro ⟨-, lid, hlidmem, hcon⟩
                rw [hclid] at hcon
                injection hcon with hcon
                exact hwid (hcon ▸ hlidmem)
              rw [hFc]
              exact Or.inr hclid
            · have hqlid : q.id ∈ (l0 :: rest).map (fun l => l.id) :=
                List.mem_map.2 ⟨q, hmemQ, rfl⟩
              rw [mergedContact_of_orphan _ _ _ _ hc0_not_loser hal q.id hqlid hclid]
              exact Or.inr rfl
  · -- single-primary case
    have hne := resolve_nonempty hwf hmatch
    obtain ⟨pid, hp⟩ : ∃ pid, resolvePrimaryIds (findByEmailOrPhone em ph s) = [pid] := by
      rcases hp : resolvePrimaryIds (findByEmailOrPhone em ph s) with - | ⟨a, - | ⟨b, t2⟩⟩
      · exact absurd hp hne
      · exact ⟨a, rfl⟩
      · exfalso
        rw [hp] at hlen
        exact hlen (by simp)
    obtain ⟨P, hPs, hPal, hPprim, hPid⟩ := resolve_ids_are_primaries hwf
      (by rw [hp]; exact List.mem_cons_self ..)
    have hpm : pipelineMerged now em ph s =
        (findAllLinkedContacts (resolvePrimaryIds (findByEmailOrPhone em ph s)) s, s) := by
      unfold pipelineMerged
      dsimp only
      rw [if_neg hlen]
    refine ⟨P, ?_, hPal, hPprim, ?_, ?_⟩
    · rw [hpm]
      exact hPs
    · rw [hpm, hp, hPid]
    · intro c hc hal hcond
      rw [hpm] at hc
      have hcm : c ∈ findByEmailOrPhone em ph s :=
        mem_findByEmailOrPhone.2 ⟨hc, by rw [Bool.and_eq_true]; exact ⟨hal, hcond⟩⟩
      cases hlp : c.linkPrecedence with
      | primary =>
        have := resolve_contribution_primary hcm hlp
        rw [hp] at this
        simp only [List.mem_singleton] at this
        exact Or.inl (this.trans hPid.symm)
      | secondary =>
        obtain ⟨q, hqs, hqal, hclid, hqprim⟩ := hwf.2.2.2.2 c hc hal hlp
        have hqid := resolve_contribution_secondary hcm
          (by rw [hlp]; intro h; cases h) hclid
        rw [hp] at hqid
        simp only [List.mem_singleton] at hqid
        rw [hqid, hPid.symm] at hclid
        exact Or.inr hclid

theorem truthy_normalizeField (v : Option String) :
    truthy (normalizeField v) = (normalizeField v).isSome := by
  cases hc : normalizeField v with
  | none => rfl
  | some x =>
    have hx := normalizeField_some_ne_empty hc
    simp [truthy, hx]

theorem buildResponse_singleton_primary {c : Contact}
    (hc : c.linkPrecedence = LinkPrecedence.primary) :
    buildResponse [c] = Except.ok
      { primaryContatctId := c.id,
        emails := if truthy c.email then [c.email.getD ""] else [],
        phoneNumbers := if truthy c.phoneNumber then [c.phoneNumber.getD ""] else [],
        secondaryContactIds := [] } := by
  unfold buildResponse collectEmails collectPhones collectSecondaryIds
  cases he : c.email <;> cases hp2 : c.phoneNumber <;>
    simp [List.insertionSort, List.orderedInsert, List.find?, truthy, he, hp2, hc]

theorem identify_twice_no_match (now1 now2 : Nat) (e p : Option String) (s : Store)
    (hwf : WellFormed s)
    (hval : ¬(normalizeField e = none ∧ normalizeField p = none))
    (hmatch : findByEmailOrPhone (normalizeField e) (normalizeField p) s = []) :
    identify now2 e p ((identify now1 e p s).2) = identify now1 e p s := by
  have hfil : s.contacts.filter (fun c => alive c &&
      ((truthy (normalizeField e) && c.email == normalizeField e) ||
        (truthy (normalizeField p) && c.phoneNumber == normalizeField p))) = [] := by
    apply insertionSort_eq_nil (r := leCreated)
    exact hmatch
  have hcall1 : identify now1 e p s =
      createNewPrimaryContact now1 (normalizeField e) (normalizeField p) s := by
    rw [identify_eq, if_neg hval, if_pos (by rw [hmatch]; rfl)]
  have hP : (createContact now1 (normalizeField e) (normalizeField p) none
      LinkPrecedence.primary s).1 =
      { id := s.nextId, phoneNumber := normalizeField p, email := normalizeField e,
        linkedId := none, linkPrecedence := LinkPrecedence.primary,
        createdAt := now1, updatedAt := now1, deletedAt := none } := rfl
  have hs1 : ((identify now1 e p s).2).contacts =
      s.contacts ++ [(createContact now1 (normalizeField e) (normalizeField p) none
        LinkPrecedence.primary s).1] := by
    rw [hcall1]
    rfl
  have hPmatches : (alive (createContact now1 (normalizeField e) (normalizeField p) none
      LinkPrecedence.primary s).1 &&
      ((truthy (normalizeField e) &&
        (createContact now1 (normalizeField e) (normalizeField p) none
          LinkPrecedence.primary s).1.email == normalizeField e) ||
        (truthy (normalizeField p) &&
          (createContact now1 (normalizeField e) (normalizeField p) none
            LinkPrecedence.primary s).1.phoneNumber == normalizeField p))) = true := by
    rw [hP]
    show (true && ((truthy (normalizeField e) && (normalizeField e == normalizeField e)) ||
      (truthy (normalizeField p) && (normalizeField p == normalizeField p)))) = true
    rw [Bool.true_and, beq_self_eq_true, beq_self_eq_true, Bool.and_true, Bool.and_true,
      truthy_normalizeField, truthy_normalizeField, Bool.or_eq_true]
    rcases Decidable.not_and_iff_or_not.1 hval with h | h
    · exact Or.inl (by cases hc : normalizeField e; exact absurd hc h; rfl)
    · exact Or.inr (by cases hc : normalizeField p; exact absurd hc h; rfl)
  have hmatch2 : findByEmailOrPhone (normalizeField e) (normalizeField p)
      (identify now1 e p s).2 =
      [(createContact now1 (normalizeField e) (normalizeField p) none
        LinkPrecedence.primary s).1] := by
    unfold findByEmailOrPhone
    rw [hs1, List.filter_append, hfil, List.filter_cons, if_pos hPmatches]
    rfl
  have hnolink : ∀ c ∈ s.contacts, (alive c && linkedToAny [s.nextId] c) = false := by
    intro c hc
    cases hal : alive c
    · rfl
    · rw [Bool.true_and]
      unfold linkedToAny
      have hid : c.id ≠ s.nextId := Nat.ne_of_lt (hwf.2.1 c hc)
      rw [Bool.or_eq_false_iff]
      constructor
      · simp [hid]
      · cases hlp : c.linkPrecedence with
        | primary =>
          rw [hwf.2.2.2.1 c hc hal hlp]
        | secondary =>
          obtain ⟨q, hqs, -, hclid, -⟩ := hwf.2.2.2.2 c hc hal hlp
          rw [hclid]
          have : q.id ≠ s.nextId := Nat.ne_of_lt (hwf.2.1 q hqs)
          simp [this]
  have hfetch : findAllLinkedContacts
      [(createContact now1 (normalizeField e) (normalizeField p) none
        LinkPrecedence.primary s).1.id] (identify now1 e p s).2 =
      [(createContact now1 (normalizeField e) (normalizeField p) none
        LinkPrecedence.primary s).1] := by
    unfold findAllLinkedContacts
    rw [if_neg (by intro h; cases h)]
    rw [hs1, List.filter_append]
    have h1 : s.contacts.filter (fun c => alive c &&
        linkedToAny [(createContact now1 (normalizeField e) (normalizeField p) none
          LinkPrecedence.primary s).1.id] c) = [] := by
      rw [List.filter_eq_nil_iff]
      intro c hc
      rw [hP]
      exact fun h => by rw [hnolink c hc] at h; cases h
    rw [h1]
    rw [List.filter_cons]
    rw [if_pos (by
      rw [Bool.and_eq_true]
      refine ⟨rfl, ?_⟩
      unfold linkedToAny
      rw [Bool.or_eq_true]
      left
      simp)]
    rfl
  have hres : resolvePrimaryIds [(createContact now1 (normalizeField e) (normalizeField p)
      none LinkPrecedence.primary s).1] =
      [(createContact now1 (normalizeField e) (normalizeField p) none
        LinkPrecedence.primary s).1.id] := rfl
  have hpm2 : pipelineMerged now2 (normalizeField e) (normalizeField p)
      (identify now1 e p s).2 =
      ([(createContact now1 (normalizeField e) (normalizeField p) none
        LinkPrecedence.primary s).1], (identify now1 e p s).2) := by
    unfold pipelineMerged
    rw [hmatch2, hres]
    dsimp only
    rw [if_neg (by simp), hfetch]
  have hfin2 : pipelineFinal now2 (normalizeField e) (normalizeField p)
      (identify now1 e p s).2 =
      ([(createContact now1 (normalizeField e) (normalizeField p) none
        LinkPrecedence.primary s).1], (identify now1 e p s).2) := by
    unfold pipelineFinal
    rw [hpm2]
    exact createSecondaryIfNeeded_of_exact
      ⟨_, List.mem_cons_self .., Or.inr rfl, Or.inr rfl⟩
  rw [identify_eq, if_neg hval, if_neg (by rw [hmatch2]; intro h; cases h), hfin2]
  rw [hcall1]
  show (buildResponse [(createContact now1 (normalizeField e) (normalizeField p) none
      LinkPrecedence.primary s).1], _) = _
  rw [buildResponse_singleton_primary (by rw [hP])]
  rfl

theorem respLe_tie_eq {x a : Contact} (h1 : respLe x a) (h2 : respLe a x) :
    rank x = rank a ∧ x.createdAt = a.createdAt := by
  unfold respLe at h1 h2
  rcases h1 with h1 | ⟨h1, h1c⟩ <;> rcases h2 with h2 | ⟨h2, h2c⟩
  · exact absurd (Nat.lt_trans h1 h2) (Nat.lt_irrefl _)
  · exact absurd (h2 ▸ h1) (Nat.lt_irrefl _)
  · exact absurd (h1 ▸ h2) (Nat.lt_irrefl _)
  · exact ⟨h1, Nat.le_antisymm h1c h2c⟩

theorem sortResp_sortCreated_append (fl : List Contact) (nu : Contact) :
    List.insertionSort respLe (List.insertionSort leCreated fl ++ [nu]) =
      List.insertionSort respLe (List.insertionSort leCreated (fl ++ [nu])) := by
  have hp : ∀ x : Contact, ∀ a b : Contact,
      (decide (respLe x a) && decide (respLe a x)) = true →
      (decide (respLe x b) && decide (respLe b x)) = true → leCreated a b := by
    intro x a b ha hb
    rw [Bool.and_eq_true, decide_eq_true_iff, decide_eq_true_iff] at ha hb
    have h1 := respLe_tie_eq ha.1 ha.2
    have h2 := respLe_tie_eq hb.1 hb.2
    unfold leCreated
    rw [← h1.2, h2.2]
  apply insertionSort_congr
  · exact ((List.perm_insertionSort leCreated fl).append_right [nu]).trans
      (List.perm_insertionSort leCreated (fl ++ [nu])).symm
  · intro x
    rw [List.filter_append,
      filter_insertionSort_eq _ (hp x) fl,
      filter_insertionSort_eq _ (hp x) (fl ++ [nu]),
      List.filter_append]

theorem createContact_matches (now : Nat) (e p : Option String) (lk : Option Nat)
    (pr : LinkPrecedence) (st : Store)
    (hval : ¬(normalizeField e = none ∧ normalizeField p = none)) :
    (alive (createContact now (normalizeField e) (normalizeField p) lk pr st).1 &&
      ((truthy (normalizeField e) &&
        (createContact now (normalizeField e) (normalizeField p) lk pr st).1.email ==
          normalizeField e) ||
        (truthy (normalizeField p) &&
          (createContact now (normalizeField e) (normalizeField p) lk pr st).1.phoneNumber ==
            normalizeField p))) = true := by
  show (true && ((truthy (normalizeField e) && (normalizeField e == normalizeField e)) ||
    (truthy (normalizeField p) && (normalizeField p == normalizeField p)))) = true
  rw [Bool.true_and, beq_self_eq_true, beq_self_eq_true, Bool.and_true, Bool.and_true,
    truthy_normalizeField, truthy_normalizeField, Bool.or_eq_true]
  rcases Decidable.not_and_iff_or_not.1 hval with h | h
  · exact Or.inl (by cases hc : normalizeField e
                     · exact absurd hc h
                     · rfl)
  · exact Or.inr (by cases hc : normalizeField p
                     · exact absurd hc h
                     · rfl)

theorem identify_on_settled (now2 : Nat) (e p : Option String) (s1 : Store) (P : Contact)
    (hwf1 : WellFormed s1)
    (hval : ¬(normalizeField e = none ∧ normalizeField p = none))
    (hPmem : P ∈ s1.contacts)
    (hPprim : P.linkPrecedence = LinkPrecedence.primary)
    (hbound : ∀ c ∈ s1.contacts, alive c = true →
      ((truthy (normalizeField e) && c.email == normalizeField e) ||
        (truthy (normalizeField p) && c.phoneNumber == normalizeField p)) = true →
      (c.id = P.id ∨ c.linkedId = some P.id))
    (hne : findByEmailOrPhone (normalizeField e) (normalizeField p) s1 ≠ [])
    (hnocreate : createSecondaryIfNeeded now2 (normalizeField e) (normalizeField p)
      (findAllLinkedContacts [P.id] s1) s1 = (findAllLinkedContacts [P.id] s1, s1)) :
    identify now2 e p s1 =
      (buildResponse (findAllLinkedContacts [P.id] s1), s1) := by
  have hprops : ∀ c ∈ findByEmailOrPhone (normalizeField e) (normalizeField p) s1,
      (c.linkPrecedence = LinkPrecedence.primary ∧ c.id = P.id) ∨
      (c.linkPrecedence = LinkPrecedence.secondary ∧ c.linkedId = some P.id) := by
    intro c hc
    obtain ⟨hcs, hcond⟩ := mem_findByEmailOrPhone.1 hc
    rw [Bool.and_eq_true] at hcond
    rcases hbound c hcs hcond.1 hcond.2 with hid | hlid
    · have hceq : c = P := List.inj_on_of_nodup_map hwf1.1 hcs hPmem hid
      exact Or.inl ⟨by rw [hceq]; exact hPprim, hid⟩
    · cases hlp : c.linkPrecedence with
      | primary =>
        have := hwf1.2.2.2.1 c hcs hcond.1 hlp
        rw [this] at hlid
        cases hlid
      | secondary => exact Or.inr ⟨rfl, hlid⟩
  have hres : resolvePrimaryIds
      (findByEmailOrPhone (normalizeField e) (normalizeField p) s1) = [P.id] :=
    resolvePrimaryIds_const hne hprops
  have hpm : pipelineMerged now2 (normalizeField e) (normalizeField p) s1 =
      (findAllLinkedContacts [P.id] s1, s1) := by
    unfold pipelineMerged
    rw [hres]
    dsimp only
    rw [if_neg (by simp)]
  have hfin : pipelineFinal now2 (normalizeField e) (normalizeField p) s1 =
      (findAllLinkedContacts [P.id] s1, s1) := by
    unfold pipelineFinal
    rw [hpm]
    exact hnocreate
  rw [identify_eq, if_neg hval, if_neg (by simpa using hne), hfin]

theorem identify_twice_matched (now1 now2 : Nat) (e p : Option String) (s : Store)
    (hwf : WellFormed s)
    (hval : ¬(normalizeField e = none ∧ normalizeField p = none))
    (hmatch : findByEmailOrPhone (normalizeField e) (normalizeField p) s ≠ []) :
    identify now2 e p ((identify now1 e p s).2) = identify now1 e p s := by
  obtain ⟨P, hPmid, hPal, hPprim, hM1, hbound⟩ :=
    pipelineMerged_spec now1 (normalizeField e) (normalizeField p) s hwf hmatch
  have hwfmid : WellFormed (pipelineMerged now1 (normalizeField e) (normalizeField p) s).2 :=
    wellFormed_pipelineMerged now1 _ _ s hwf
  have hne1 : ¬(findByEmailOrPhone (normalizeField e) (normalizeField p) s).isEmpty = true := by
    simpa using hmatch
  have hsurv : ∀ s2 : Store,
      Evolves (pipelineMerged now1 (normalizeField e) (normalizeField p) s).2 s2 →
      findByEmailOrPhone (normalizeField e) (normalizeField p) s2 ≠ [] := by
    intro s2 hev
    obtain ⟨m, hm⟩ := List.exists_mem_of_ne_nil _ hmatch
    obtain ⟨hms, hmcond⟩ := mem_findByEmailOrPhone.1 hm
    obtain ⟨m2, hm2s, hcore⟩ :=
      (evolves_trans (evolves_pipelineMerged now1 (normalizeField e) (normalizeField p) s)
        hev).2 m hms
    have hcond2 : (alive m2 &&
        ((truthy (normalizeField e) && m2.email == normalizeField e) ||
          (truthy (normalizeField p) && m2.phoneNumber == normalizeField p))) = true := by
      have hal : alive m2 = alive m := by
        unfold alive
        rw [hcore.2.2.2.2]
      rw [hal, hcore.2.1, hcore.2.2.1]
      exact hmcond
    intro hnil
    have hmem2 : m2 ∈ findByEmailOrPhone (normalizeField e) (normalizeField p) s2 :=
      mem_findByEmailOrPhone.2 ⟨hm2s, hcond2⟩
    rw [hnil] at hmem2
    cases hmem2
  rcases createSecondaryIfNeeded_cases now1 (normalizeField e) (normalizeField p)
      (pipelineMerged now1 (normalizeField e) (normalizeField p) s).1
      (pipelineMerged now1 (normalizeField e) (normalizeField p) s).2 with hA | ⟨pim, hfind, hB⟩
  · -- call 1 created no secondary: the second call finds the identical settled cluster
    have hcall1 : identify now1 e p s =
        (buildResponse (findAllLinkedContacts [P.id]
            (pipelineMerged now1 (normalizeField e) (normalizeField p) s).2),
          (pipelineMerged now1 (normalizeField e) (normalizeField p) s).2) := by
      rw [identify_eq, if_neg hval, if_neg hne1]
      unfold pipelineFinal
      rw [hA]
      dsimp only
      rw [hM1]
    have hA2 : createSecondaryIfNeeded now2 (normalizeField e) (normalizeField p)
        (findAllLinkedContacts [P.id]
          (pipelineMerged now1 (normalizeField e) (normalizeField p) s).2)
        (pipelineMerged now1 (normalizeField e) (normalizeField p) s).2 =
        (findAllLinkedContacts [P.id]
          (pipelineMerged now1 (normalizeField e) (normalizeField p) s).2,
          (pipelineMerged now1 (normalizeField e) (normalizeField p) s).2) := by
      rw [← hM1]
      exact createSecondaryIfNeeded_now_swap hA now2
    rw [hcall1]
    dsimp only
    exact identify_on_settled now2 e p _ P hwfmid hval hPmid hPprim hbound
      (hsurv _ (evolves_refl _)) hA2
  · -- call 1 created a secondary: the new row exact-matches the request, so call 2 creates nothing
    obtain ⟨hPF, huniqF⟩ := fetch_by_winner_unique_primary
      (pipelineMerged now1 (normalizeField e) (normalizeField p) s).2 hwfmid P hPmid hPal hPprim
    have hfindP : ((pipelineMerged now1 (normalizeField e) (normalizeField p) s).1).find?
        (fun c => c.linkPrecedence == LinkPrecedence.primary) = some P := by
      rw [hM1]
      exact find?_eq_of_unique hPF (by simpa using hPprim)
        (fun q hq hpq => huniqF q hq (by simpa using hpq))
    have hpim : pim = P := Option.some.inj (hfind.symm.trans hfindP)
    rw [hpim] at hB
    have hcall1 : identify now1 e p s =
        (buildResponse ((pipelineMerged now1 (normalizeField e) (normalizeField p) s).1 ++
            [(createContact now1 (normalizeField e) (normalizeField p) (some P.id)
              LinkPrecedence.secondary
              (pipelineMerged now1 (normalizeField e) (normalizeField p) s).2).1]),
          (createContact now1 (normalizeField e) (normalizeField p) (some P.id)
            LinkPrecedence.secondary
            (pipelineMerged now1 (normalizeField e) (normalizeField p) s).2).2) := by
      rw [identify_eq, if_neg hval, if_neg hne1]
      unfold pipelineFinal
      rw [hB]
    have hsNc : (((createContact now1 (normalizeField e) (normalizeField p) (some P.id)
        LinkPrecedence.secondary
        (pipelineMerged now1 (normalizeField e) (normalizeField p) s).2).2)).contacts =
        ((pipelineMerged now1 (normalizeField e) (normalizeField p) s).2).contacts ++
          [(createContact now1 (normalizeField e) (normalizeField p) (some P.id)
            LinkPrecedence.secondary
            (pipelineMerged now1 (normalizeField e) (normalizeField p) s).2).1] := rfl
    have hwfN : WellFormed ((createContact now1 (normalizeField e) (normalizeField p) (some P.id)
        LinkPrecedence.secondary
        (pipelineMerged now1 (normalizeField e) (normalizeField p) s).2).2) := by
      have hx := wellFormed_identify now1 e p s hwf
      rw [hcall1] at hx
      exact hx
    have hPN : P ∈ (((createContact now1 (normalizeField e) (normalizeField p) (some P.id)
        LinkPrecedence.secondary
        (pipelineMerged now1 (normalizeField e) (normalizeField p) s).2).2)).contacts := by
      rw [hsNc]
      exact List.mem_append.2 (Or.inl hPmid)
    have hboundN : ∀ c ∈ (((createContact now1 (normalizeField e) (normalizeField p) (some P.id)
        LinkPrecedence.secondary
        (pipelineMerged now1 (normalizeField e) (normalizeField p) s).2).2)).contacts,
        alive c = true →
        ((truthy (normalizeField e) && c.email == normalizeField e) ||
          (truthy (normalizeField p) && c.phoneNumber == normalizeField p)) = true →
        (c.id = P.id ∨ c.linkedId = some P.id) := by
      intro c hc hal hcond
      rw [hsNc] at hc
      rcases List.mem_append.1 hc with hcs | hcnu
      · exact hbound c hcs hal hcond
      · have hceq : c = (createContact now1 (normalizeField e) (normalizeField p) (some P.id)
            LinkPrecedence.secondary
            (pipelineMerged now1 (normalizeField e) (normalizeField p) s).2).1 := by
          simpa using hcnu
        rw [hceq]
        exact Or.inr rfl
    have hneN : findByEmailOrPhone (normalizeField e) (normalizeField p)
        ((createContact now1 (normalizeField e) (normalizeField p) (some P.id)
          LinkPrecedence.secondary
          (pipelineMerged now1 (normalizeField e) (normalizeField p) s).2).2) ≠ [] :=
      hsurv _ (evolves_createContact now1 (normalizeField e) (normalizeField p) (some P.id)
        LinkPrecedence.secondary (pipelineMerged now1 (normalizeField e) (normalizeField p) s).2)
    have hnuPred : (alive (createContact now1 (normalizeField e) (normalizeField p) (some P.id)
        LinkPrecedence.secondary
        (pipelineMerged now1 (normalizeField e) (normalizeField p) s).2).1 &&
        linkedToAny [P.id]
          (createContact now1 (normalizeField e) (normalizeField p) (some P.id)
            LinkPrecedence.secondary
            (pipelineMerged now1 (normalizeField e) (normalizeField p) s).2).1) = true := by
      rw [Bool.and_eq_true]
      refine ⟨rfl, ?_⟩
      unfold linkedToAny
      rw [Bool.or_eq_true]
      right
      show ([P.id].contains P.id) = true
      simp
    have hnuFetch : (createContact now1 (normalizeField e) (normalizeField p) (some P.id)
        LinkPrecedence.secondary
        (pipelineMerged now1 (normalizeField e) (normalizeField p) s).2).1 ∈
        findAllLinkedContacts [P.id]
          ((createContact now1 (normalizeField e) (normalizeField p) (some P.id)
            LinkPrecedence.secondary
            (pipelineMerged now1 (normalizeField e) (normalizeField p) s).2).2) := by
      apply mem_findAllLinkedContacts.2
      refine ⟨by simp, ?_, hnuPred⟩
      rw [hsNc]
      exact List.mem_append.2 (Or.inr (List.mem_singleton.2 rfl))
    have hnoc : createSecondaryIfNeeded now2 (normalizeField e) (normalizeField p)
        (findAllLinkedContacts [P.id]
          ((createContact now1 (normalizeField e) (normalizeField p) (some P.id)
            LinkPrecedence.secondary
            (pipelineMerged now1 (normalizeField e) (normalizeField p) s).2).2))
        ((createContact now1 (normalizeField e) (normalizeField p) (some P.id)
          LinkPrecedence.secondary
          (pipelineMerged now1 (normalizeField e) (normalizeField p) s).2).2) =
        (findAllLinkedContacts [P.id]
          ((createContact now1 (normalizeField e) (normalizeField p) (some P.id)
            LinkPrecedence.secondary
            (pipelineMerged now1 (normalizeField e) (normalizeField p) s).2).2),
          (createContact now1 (normalizeField e) (normalizeField p) (some P.id)
            LinkPrecedence.secondary
            (pipelineMerged now1 (normalizeField e) (normalizeField p) s).2).2) :=
      createSecondaryIfNeeded_of_exact ⟨_, hnuFetch, Or.inr rfl, Or.inr rfl⟩
    rw [hcall1]
    dsimp only
    rw [identify_on_settled now2 e p _ P hwfN hval hPN hPprim hboundN hneN hnoc]
    congr 1
    have hfetchN : findAllLinkedContacts [P.id]
        ((createContact now1 (normalizeField e) (normalizeField p) (some P.id)
          LinkPrecedence.secondary
          (pipelineMerged now1 (normalizeField e) (normalizeField p) s).2).2) =
        List.insertionSort leCreated
          ((((pipelineMerged now1 (normalizeField e) (normalizeField p) s).2).contacts.filter
              fun c => alive c && linkedToAny [P.id] c) ++
            [(createContact now1 (normalizeField e) (normalizeField p) (some P.id)
              LinkPrecedence.secondary
              (pipelineMerged now1 (normalizeField e) (normalizeField p) s).2).1]) := by
      unfold findAllLinkedContacts
      rw [if_neg (by simp), hsNc, List.filter_append]
      congr 2
      rw [List.filter_cons, if_pos hnuPred, List.filter_nil]
    have hFfl : (pipelineMerged now1 (normalizeField e) (normalizeField p) s).1 =
        List.insertionSort leCreated
          (((pipelineMerged now1 (normalizeField e) (normalizeField p) s).2).contacts.filter
            fun c => alive c && linkedToAny [P.id] c) := by
      rw [hM1]
      unfold findAllLinkedContacts
      rw [if_neg (by simp)]
    rw [hfetchN, hFfl]
    exact (buildResponse_congr (sortResp_sortCreated_append _ _)).symm

/-- C4: on a store satisfying the data-model invariants, calling identify
twice with the same (email, phoneNumber) request is idempotent: the second
call returns the identical response (hence byte-identical emails,
phoneNumbers and secondaryContactIds) and leaves the store exactly as the
first call left it, so no new contact is created and re-running the merge
on an already-merged cluster is a no-op.  The claim as stated over *every*
store is false (see the counterexample): on a corrupt store holding a
secondary chained to another secondary, the two calls resolve different
clusters and return different responses, so the invariant hypothesis is
necessary. -/
theorem identify_idempotent (now1 now2 : Nat) (e p : Option String) (s : Store)
    (hwf : WellFormed s) :
    identify now2 e p ((identify now1 e p s).2) = identify now1 e p s := by
  by_cases hval : normalizeField e = none ∧ normalizeField p = none
  · rw [identify_eq now1, if_pos hval]
    dsimp only
    rw [identify_eq now2, if_pos hval]
  · by_cases hmatch : findByEmailOrPhone (normalizeField e) (normalizeField p) s = []
    · exact identify_twice_no_match now1 now2 e p s hwf hval hmatch
    · exact identify_twice_matched now1 now2 e p s hwf hval hmatch

theorem identify_idempotent_witness :
    WellFormed storeSpecPair ∧
      identify 5 (some ("george@hillvalley.edu")) (some ("717171"))
          ((identify 3 (some ("george@hillvalley.edu")) (some ("717171")) storeSpecPair).2) =
        identify 3 (some ("george@hillvalley.edu")) (some ("717171")) storeSpecPair :=
  ⟨by decide,
    identify_idempotent 3 5 (some ("george@hillvalley.edu")) (some ("717171")) storeSpecPair
      (by decide)⟩

/-- On the invariant-violating store `storeCorruptPointer` (contact 4 is a
secondary whose linkedId names the secondary contact 3), the same request
issued twice gives different responses: the first call's merge demotes
contact 2 under contact 1 but never repoints contact 4, whose corrupt
pointer keeps it outside the reported cluster, while the second call's
resolution pulls contact 4 in, so phoneNumbers and secondaryContactIds
grow; identify is therefore not idempotent over arbitrary store states. -/
theorem identify_not_idempotent_counterexample :
    identify 8 (some ("e")) (some ("p"))
        ((identify 7 (some ("e")) (some ("p")) storeCorruptPointer).2) ≠
      identify 7 (some ("e")) (some ("p")) storeCorruptPointer := by decide
